import Mathlib

/-!
# Verification of the mythix-twt token codec

Shallow embedding of `src/lib/index.js` (token layer) and
`src/lib/crypto-utils.js` (transcoding / cipher layer) of the mythix-twt
repository, together with proofs about the claims of its specification.

Modelling conventions:
* JavaScript numbers that matter to the validation logic are integers plus
  the IEEE special values, modelled by `JSNum` (`fin`, `nan`, `inf`, `ninf`).
* JavaScript values that can appear in an options field are modelled by
  `JSVal`; JSON values by `JVal` (numbers restricted to integers).
* Bytes are `Nat`s kept `< 256`; byte strings are `List Nat`.
* The AES-256-CTR primitive (external to the repository) is modelled as a
  counter-mode keystream XOR: the keystream is an arbitrary parameter
  `ks : List Nat → List Nat → Nat → Nat` (key, iv, byte index ↦ keystream
  byte), which is exactly the structure of CTR mode; concrete theorems
  instantiate it.
* Thrown JS errors are modelled by `Except JSErr`; `TWTError`s carry their
  `code` and message, uncaught `TypeError`s are a separate constructor.
-/

/-- A JavaScript number as it matters to the token layer: a finite integer
or one of the IEEE special values. -/
inductive JSNum where
  | fin (n : Int)
  | nan
  | inf
  | ninf
  deriving DecidableEq, Repr

namespace JSNum

/-- JavaScript `<` on numbers (`NaN` compares false to everything). -/
def ltB : JSNum → JSNum → Bool
  | fin a, fin b => a < b
  | fin _, inf => true
  | ninf, fin _ => true
  | ninf, inf => true
  | _, _ => false

/-- JavaScript `>` on numbers. -/
def gtB (a b : JSNum) : Bool := ltB b a

/-- JavaScript subtraction. -/
def sub : JSNum → JSNum → JSNum
  | fin a, fin b => fin (a - b)
  | fin _, inf => ninf
  | fin _, ninf => inf
  | inf, fin _ => inf
  | inf, ninf => inf
  | ninf, fin _ => ninf
  | ninf, inf => ninf
  | _, _ => nan

/-- Adding an integer constant to a JavaScript number. -/
def addInt : JSNum → Int → JSNum
  | fin a, k => fin (a + k)
  | nan, _ => nan
  | inf, _ => inf
  | ninf, _ => ninf

/-- JavaScript `isFinite`. -/
def isFiniteB : JSNum → Bool
  | fin _ => true
  | _ => false

/-- JavaScript `Number.prototype.toString()` (decimal), for the values the
model can produce. -/
def toDecString : JSNum → String
  | fin n => toString n
  | nan => "NaN"
  | inf => "Infinity"
  | ninf => "-Infinity"

end JSNum

/-- A JavaScript value that can appear in a caller-supplied options field:
`undefined`, `null`, a boolean, a number, a string, or a plain object used
as a key-rename map (string values). -/
inductive JSVal where
  | undef
  | vnull
  | vbool (b : Bool)
  | vnum (n : JSNum)
  | vstr (s : String)
  | vmap (m : List (String × String))
  deriving DecidableEq, Repr

namespace JSVal

/-- JavaScript truthiness. -/
def truthy : JSVal → Bool
  | undef => false
  | vnull => false
  | vbool b => b
  | vnum (.fin n) => n != 0
  | vnum .nan => false
  | vnum _ => true
  | vstr s => s != ""
  | vmap _ => true

/-- `typeof v === 'number'`. -/
def isNumber : JSVal → Bool
  | vnum _ => true
  | _ => false

/-- JavaScript `v + k` for an integer constant `k` (numeric addition, or
string concatenation after `ToString`/`ToNumber` coercion). -/
def addInt : JSVal → Int → JSVal
  | vnum n, k => vnum (n.addInt k)
  | vstr s, k => vstr (s ++ toString k)
  | vbool b, k => vnum (.fin ((if b then 1 else 0) + k))
  | vnull, k => vnum (.fin k)
  | undef, _ => vnum .nan
  | vmap _, k => vstr ("[object Object]" ++ toString k)

end JSVal

/-- A JSON value (`JSON.parse` output / `JSON.stringify` input); numbers are
restricted to the integers, which is all the token layer produces. -/
inductive JVal where
  | jnull
  | jbool (b : Bool)
  | jnum (n : Int)
  | jstr (s : String)
  | jarr (xs : List JVal)
  | jobj (kvs : List (String × JVal))

/-- A JavaScript object with JSON values: an insertion-ordered association
list with (invariant) pairwise-distinct keys. -/
abbrev JSObj := List (String × JVal)

/-- Property read on an object (`undefined` is `none`). -/
def objGet : JSObj → String → Option JVal
  | [], _ => none
  | kv :: rest, k => if kv.1 = k then some kv.2 else objGet rest k

/-- JavaScript property assignment on an object: overwrite in place if the
key is present (keeping its position), else append. -/
def objSet : JSObj → String → JVal → JSObj
  | [], k, v => [(k, v)]
  | kv :: rest, k, v =>
    if kv.1 = k then (k, v) :: rest else kv :: objSet rest k v

/-- Truthiness of a JSON value (as a JavaScript value). -/
def jtruthy : JVal → Bool
  | .jnull => false
  | .jbool b => b
  | .jnum n => n != 0
  | .jstr s => s != ""
  | .jarr _ => true
  | .jobj _ => true

theorem objGet_objSet_self (o : JSObj) (k : String) (v : JVal) :
    objGet (objSet o k v) k = some v := by
  induction o with
  | nil => simp [objSet, objGet]
  | cons hd tl ih =>
    by_cases hh : hd.1 = k
    · simp [objSet, objGet, hh]
    · simp [objSet, objGet, hh, ih]

theorem objGet_objSet_ne (o : JSObj) (k k' : String) (v : JVal)
    (hne : k' ≠ k) : objGet (objSet o k v) k' = objGet o k' := by
  have hkk : ¬(k = k') := fun h => hne h.symm
  induction o with
  | nil => simp [objSet, objGet, hkk]
  | cons hd tl ih =>
    by_cases hh : hd.1 = k
    · have h2 : ¬(hd.1 = k') := by rw [hh]; exact hkk
      simp [objSet, objGet, hh, hkk, h2]
    · by_cases h2 : hd.1 = k'
      · simp [objSet, objGet, hh, h2, hne]
      · simp [objSet, objGet, hh, h2, ih]

/-- Keys of an object after assignment. -/
theorem objSet_of_not_mem (o : JSObj) (k : String) (v : JVal)
    (h : objGet o k = none) : objSet o k v = o ++ [(k, v)] := by
  induction o with
  | nil => simp [objSet]
  | cons hd tl ih =>
    unfold objGet at h
    by_cases hh : hd.1 = k
    · simp [hh] at h
    · simp only [hh, if_false] at h
      simp [objSet, hh, ih h]

/-! ## Base-36 timestamps

`Number.prototype.toString(36)` (lowercase digits) and `parseInt(text, 36)`
(leading-whitespace skip, optional sign, longest digit prefix, `NaN` when no
digit), as used for the `$` / `$$` fields. -/

/-- Digit character for a value `< 36` (lowercase, as JS emits). -/
def base36Digit (n : Nat) : Char :=
  if n < 10 then Char.ofNat (48 + n) else Char.ofNat (87 + n)

/-- Numeric value of a base-36 digit character (case-insensitive, as
`parseInt` accepts). -/
def base36Val (c : Char) : Option Nat :=
  if 48 ≤ c.toNat ∧ c.toNat ≤ 57 then some (c.toNat - 48)
  else if 97 ≤ c.toNat ∧ c.toNat ≤ 122 then some (c.toNat - 87)
  else if 65 ≤ c.toNat ∧ c.toNat ≤ 90 then some (c.toNat - 55)
  else none

/-- Digit loop for base-36 rendering; the fuel bounds the digit count
(`n` itself is always enough fuel). -/
def natToBase36Go : Nat → Nat → List Char
  | 0, n => [base36Digit n]
  | fuel + 1, n =>
    if n < 36 then [base36Digit n]
    else natToBase36Go fuel (n / 36) ++ [base36Digit (n % 36)]

/-- Digit expansion of a natural number, base 36, most significant first. -/
def natToBase36 (n : Nat) : List Char := natToBase36Go n n

theorem natToBase36Go_congr (n : Nat) : ∀ f1 f2, n ≤ f1 → n ≤ f2 →
    natToBase36Go f1 n = natToBase36Go f2 n := by
  induction n using Nat.strong_induction_on with
  | _ n ih =>
    intro f1 f2 h1 h2
    cases f1 with
    | zero =>
      obtain rfl : n = 0 := Nat.le_zero.mp h1
      cases f2 with
      | zero => rfl
      | succ f2 => simp [natToBase36Go]
    | succ f1 =>
      cases f2 with
      | zero =>
        obtain rfl : n = 0 := Nat.le_zero.mp h2
        simp [natToBase36Go]
      | succ f2 =>
        show natToBase36Go (f1 + 1) n = natToBase36Go (f2 + 1) n
        rw [natToBase36Go, natToBase36Go]
        by_cases h : n < 36
        · rw [if_pos h, if_pos h]
        · rw [if_neg h, if_neg h,
            ih (n / 36) (Nat.div_lt_self (by omega) (by omega)) f1 f2
              (by omega) (by omega)]

/-- The recursion equation of `natToBase36` in its natural form. -/
theorem natToBase36_eq (n : Nat) :
    natToBase36 n
      = if n < 36 then [base36Digit n]
        else natToBase36 (n / 36) ++ [base36Digit (n % 36)] := by
  unfold natToBase36
  by_cases h : n < 36
  · rw [if_pos h]
    cases n with
    | zero => rfl
    | succ m => rw [natToBase36Go, if_pos h]
  · rw [if_neg h]
    obtain ⟨m, rfl⟩ : ∃ m, n = m + 1 := ⟨n - 1, by omega⟩
    rw [natToBase36Go, if_neg h,
      natToBase36Go_congr ((m + 1) / 36) m ((m + 1) / 36)
        (by
          have := Nat.div_lt_self (show 0 < m + 1 by omega)
            (show 1 < 36 by omega)
          omega)
        (le_refl _)]

/-- `Number.prototype.toString(36)` on an integer. -/
def toBase36 (i : Int) : String :=
  if i < 0 then String.mk ('-' :: natToBase36 i.natAbs)
  else String.mk (natToBase36 i.toNat)

/-- JavaScript `StrWhiteSpace` characters (those `parseInt` skips). -/
def isJsWs (c : Char) : Bool :=
  (c.toNat == 32) || (9 ≤ c.toNat && c.toNat ≤ 13) || (c.toNat == 160) ||
  (c.toNat == 5760) || (8192 ≤ c.toNat && c.toNat ≤ 8202) ||
  (c.toNat == 8232) || (c.toNat == 8233) || (c.toNat == 8239) ||
  (c.toNat == 8287) || (c.toNat == 12288) || (c.toNat == 65279)

/-- Drop leading JS whitespace. -/
def skipJsWs : List Char → List Char
  | [] => []
  | c :: rest => if isJsWs c then skipJsWs rest else c :: rest

/-- Longest prefix of base-36 digits, as numeric values. -/
def digits36Prefix : List Char → List Nat
  | [] => []
  | c :: rest =>
    match base36Val c with
    | some v => v :: digits36Prefix rest
    | none => []

/-- Accumulate digit values into a number. -/
def foldDigits (ds : List Nat) : Nat :=
  ds.foldl (fun a d => a * 36 + d) 0

/-- `parseInt(s, 36)`. -/
def jsParseInt36 (s : String) : JSNum :=
  let cs := skipJsWs s.data
  let neg := cs.head? = some '-'
  let body := if cs.head? = some '-' ∨ cs.head? = some '+' then cs.tail else cs
  let ds := digits36Prefix body
  if ds.isEmpty then .nan
  else .fin ((if neg then -1 else 1) * (foldDigits ds : Int))

theorem base36Digit_props : ∀ m : Fin 36,
    base36Val (base36Digit m.val) = some m.val ∧
    isJsWs (base36Digit m.val) = false ∧
    base36Digit m.val ≠ '-' ∧ base36Digit m.val ≠ '+' := by decide

/-- Every character emitted by `natToBase36` is a base-36 digit, not
whitespace, and not a sign. -/
theorem natToBase36_chars (n : Nat) :
    ∀ c ∈ natToBase36 n,
      (base36Val c).isSome ∧ isJsWs c = false ∧ c ≠ '-' ∧ c ≠ '+' := by
  induction n using Nat.strong_induction_on with
  | _ n ih =>
    intro c hc
    rw [natToBase36_eq] at hc
    by_cases h : n < 36
    · rw [if_pos h] at hc
      obtain rfl := List.mem_singleton.mp hc
      obtain ⟨h1, h2, h3, h4⟩ := base36Digit_props ⟨n, h⟩
      exact ⟨by simp [h1], h2, h3, h4⟩
    · rw [if_neg h] at hc
      rcases List.mem_append.mp hc with hc | hc
      · exact ih (n / 36) (Nat.div_lt_self (by omega) (by omega)) c hc
      · obtain rfl := List.mem_singleton.mp hc
        obtain ⟨h1, h2, h3, h4⟩ := base36Digit_props ⟨n % 36, Nat.mod_lt _ (by omega)⟩
        exact ⟨by simp [h1], h2, h3, h4⟩

theorem natToBase36_ne_nil (n : Nat) : natToBase36 n ≠ [] := by
  rw [natToBase36_eq]
  by_cases h : n < 36
  · simp [h]
  · simp [h, natToBase36_ne_nil (n / 36)]
  decreasing_by exact Nat.div_lt_self (by omega) (by omega)

theorem digits36Prefix_of_digits (xs rest : List Char)
    (h : ∀ c ∈ xs, (base36Val c).isSome) :
    digits36Prefix (xs ++ rest)
      = xs.map (fun c => (base36Val c).getD 0) ++ digits36Prefix rest := by
  induction xs with
  | nil => simp
  | cons c xs ih =>
    obtain ⟨v, hv⟩ := Option.isSome_iff_exists.mp (h c (by simp))
    simp [digits36Prefix, hv, ih (fun c hc => h c (by simp [hc]))]

theorem foldl_natToBase36 (n : Nat) : ∀ a : Nat,
    ((natToBase36 n).map (fun c => (base36Val c).getD 0)).foldl
        (fun x d => x * 36 + d) a
      = a * 36 ^ (natToBase36 n).length + n := by
  induction n using Nat.strong_induction_on with
  | _ n ih =>
    intro a
    rw [natToBase36_eq]
    by_cases h : n < 36
    · rw [if_pos h]
      obtain ⟨h1, -, -, -⟩ := base36Digit_props ⟨n, h⟩
      simp [h1]
    · rw [if_neg h]
      obtain ⟨h1, -, -, -⟩ := base36Digit_props ⟨n % 36, Nat.mod_lt _ (by omega)⟩
      rw [List.map_append, List.foldl_append,
        ih (n / 36) (Nat.div_lt_self (by omega) (by omega)) a]
      simp only [List.map_cons, List.map_nil, List.foldl_cons, List.foldl_nil,
        h1, Option.getD_some, List.length_append, List.length_map,
        List.length_cons, List.length_nil]
      have hdm : n / 36 * 36 + n % 36 = n := Nat.div_add_mod' n 36
      calc (a * 36 ^ (natToBase36 (n / 36)).length + n / 36) * 36 + n % 36
      _ = a * (36 ^ (natToBase36 (n / 36)).length * 36)
            + (n / 36 * 36 + n % 36) := by ring
      _ = a * 36 ^ ((natToBase36 (n / 36)).length + (0 + 1)) + n := by
            rw [hdm]; ring

theorem digits36Prefix_natToBase36 (n : Nat) :
    digits36Prefix (natToBase36 n)
      = (natToBase36 n).map (fun c => (base36Val c).getD 0) := by
  have := digits36Prefix_of_digits (natToBase36 n) []
    (fun c hc => (natToBase36_chars n c hc).1)
  simpa [digits36Prefix] using this

/-- `parseInt(base36text, 36)` inverts `toString(36)`. -/
theorem jsParseInt36_toBase36 (i : Int) : jsParseInt36 (toBase36 i) = .fin i := by
  by_cases hi : i < 0
  · have hne := natToBase36_ne_nil i.natAbs
    unfold jsParseInt36 toBase36
    rw [if_pos hi]
    have hdata : (String.mk ('-' :: natToBase36 i.natAbs)).data
        = '-' :: natToBase36 i.natAbs := rfl
    rw [hdata]
    have hws : isJsWs '-' = false := by decide
    rw [show skipJsWs ('-' :: natToBase36 i.natAbs)
        = '-' :: natToBase36 i.natAbs by simp [skipJsWs, hws]]
    dsimp only
    rw [if_pos (show ('-' :: natToBase36 i.natAbs).head? = some '-'
        ∨ ('-' :: natToBase36 i.natAbs).head? = some '+' from Or.inl rfl)]
    rw [List.tail_cons, digits36Prefix_natToBase36]
    rw [if_neg (show ¬((natToBase36 i.natAbs).map
        (fun c => (base36Val c).getD 0)).isEmpty = true by
      simp [List.isEmpty_iff, hne])]
    rw [if_pos (show ('-' :: natToBase36 i.natAbs).head? = some '-' from rfl)]
    unfold foldDigits
    rw [foldl_natToBase36]
    simp only [Nat.zero_mul, Nat.zero_add]
    congr 1
    omega
  · have hne := natToBase36_ne_nil i.toNat
    obtain ⟨c, r, hcr⟩ : ∃ c r, natToBase36 i.toNat = c :: r := by
      cases hh : natToBase36 i.toNat with
      | nil => exact absurd hh hne
      | cons c r => exact ⟨c, r, rfl⟩
    have hdigits := natToBase36_chars i.toNat
    obtain ⟨-, hws, hminus, hplus⟩ := hdigits c (by rw [hcr]; simp)
    unfold jsParseInt36 toBase36
    rw [if_neg hi]
    have hdata : (String.mk (natToBase36 i.toNat)).data = natToBase36 i.toNat := rfl
    rw [hdata, hcr]
    rw [show skipJsWs (c :: r) = c :: r by simp [skipJsWs, hws]]
    dsimp only
    rw [if_neg (show ¬((c :: r).head? = some '-' ∨ (c :: r).head? = some '+') by
      simp only [List.head?_cons, Option.some.injEq]
      push_neg
      exact ⟨hminus, hplus⟩)]
    rw [← hcr, digits36Prefix_natToBase36]
    rw [if_neg (show ¬((natToBase36 i.toNat).map
        (fun c => (base36Val c).getD 0)).isEmpty = true by
      simp [List.isEmpty_iff, hne])]
    rw [if_neg (show ¬((natToBase36 i.toNat).head? = some '-') by
      rw [hcr]
      simp only [List.head?_cons, Option.some.injEq]
      exact hminus)]
    unfold foldDigits
    rw [foldl_natToBase36]
    simp only [Nat.zero_mul, Nat.zero_add, one_mul]
    congr 1
    omega

/-! ## UTF-8 transcoding

`Buffer.from(text, 'utf8')` and `buffer.toString('utf8')`: encoding of
Unicode scalar values, and lossy decoding (invalid sequences become
U+FFFD), as Node performs around the cipher. -/

/-- UTF-8 encoding of one scalar value. -/
def utf8EncodeChar (c : Char) : List Nat :=
  let n := c.toNat
  if n < 128 then [n]
  else if n < 2048 then [192 + n / 64, 128 + n % 64]
  else if n < 65536 then [224 + n / 4096, 128 + n / 64 % 64, 128 + n % 64]
  else [240 + n / 262144, 128 + n / 4096 % 64, 128 + n / 64 % 64, 128 + n % 64]

/-- UTF-8 encoding of a string as a byte list. -/
def utf8Encode (s : String) : List Nat := s.data.flatMap utf8EncodeChar

/-- The U+FFFD replacement character. -/
def replChar : Char := Char.ofNat 65533

/-- Is the byte a UTF-8 continuation byte? -/
def isCont (b : Nat) : Bool := 128 ≤ b && b < 192

/-- Lossy UTF-8 decoding, one scalar per step; invalid or overlong
sequences produce U+FFFD (as Node's `toString('utf8')` does). -/
def utf8DecodeAux : Nat → List Nat → List Char
  | _, [] => []
  | 0, _ => []
  | Nat.succ fuel, b :: rest =>
    if b < 128 then Char.ofNat b :: utf8DecodeAux fuel rest
    else if b < 192 then replChar :: utf8DecodeAux fuel rest
    else if b < 224 then
      match rest with
      | b1 :: r1 =>
        if isCont b1 then
          let v := (b - 192) * 64 + (b1 - 128)
          (if 128 ≤ v ∧ Nat.isValidChar v then Char.ofNat v else replChar)
            :: utf8DecodeAux fuel r1
        else replChar :: utf8DecodeAux fuel rest
      | [] => [replChar]
    else if b < 240 then
      match rest with
      | b1 :: b2 :: r2 =>
        if isCont b1 && isCont b2 then
          let v := (b - 224) * 4096 + (b1 - 128) * 64 + (b2 - 128)
          (if 2048 ≤ v ∧ Nat.isValidChar v then Char.ofNat v else replChar)
            :: utf8DecodeAux fuel r2
        else replChar :: utf8DecodeAux fuel rest
      | _ => [replChar]
    else if b < 248 then
      match rest with
      | b1 :: b2 :: b3 :: r3 =>
        if isCont b1 && isCont b2 && isCont b3 then
          let v := (b - 240) * 262144 + (b1 - 128) * 4096 + (b2 - 128) * 64
                     + (b3 - 128)
          (if 65536 ≤ v ∧ Nat.isValidChar v then Char.ofNat v else replChar)
            :: utf8DecodeAux fuel r3
        else replChar :: utf8DecodeAux fuel rest
      | _ => [replChar]
    else replChar :: utf8DecodeAux fuel rest

/-- `buffer.toString('utf8')`. -/
def utf8DecodeLossy (bs : List Nat) : String :=
  String.mk (utf8DecodeAux bs.length bs)

theorem utf8EncodeChar_lt (c : Char) : ∀ b ∈ utf8EncodeChar c, b < 256 := by
  have hv : c.toNat < 1114112 := by
    rcases c.valid with h | h
    · calc c.toNat < 55296 := h
      _ < 1114112 := by omega
    · exact h.2
  intro b hb
  unfold utf8EncodeChar at hb
  dsimp only at hb
  by_cases h1 : c.toNat < 128
  · rw [if_pos h1] at hb
    simp only [List.mem_cons, List.not_mem_nil, or_false] at hb
    subst hb; omega
  · rw [if_neg h1] at hb
    by_cases h2 : c.toNat < 2048
    · rw [if_pos h2] at hb
      simp only [List.mem_cons, List.not_mem_nil, or_false] at hb
      rcases hb with rfl | rfl <;> omega
    · rw [if_neg h2] at hb
      by_cases h3 : c.toNat < 65536
      · rw [if_pos h3] at hb
        simp only [List.mem_cons, List.not_mem_nil, or_false] at hb
        rcases hb with rfl | rfl | rfl <;> omega
      · rw [if_neg h3] at hb
        simp only [List.mem_cons, List.not_mem_nil, or_false] at hb
        rcases hb with rfl | rfl | rfl | rfl <;> omega

theorem utf8Encode_lt (s : String) : ∀ b ∈ utf8Encode s, b < 256 := by
  unfold utf8Encode
  intro b hb
  obtain ⟨c, -, hc⟩ := List.mem_flatMap.mp hb
  exact utf8EncodeChar_lt c b hc

theorem char_toNat_valid (c : Char) : Nat.isValidChar c.toNat := by
  rcases c.valid with h | h
  · exact Or.inl h
  · exact Or.inr h

/-- Lossy UTF-8 decoding inverts UTF-8 encoding (with enough fuel). -/
theorem utf8DecodeAux_encode (cs : List Char) : ∀ fuel : Nat,
    cs.length ≤ fuel → utf8DecodeAux fuel (cs.flatMap utf8EncodeChar) = cs := by
  induction cs with
  | nil =>
    intro fuel _
    simp only [List.flatMap_nil]
    cases fuel <;> rfl
  | cons c cs ih =>
    intro fuel hfuel
    cases fuel with
    | zero => simp at hfuel
    | succ f =>
      have hlen : cs.length ≤ f := by simpa using hfuel
      have hvalid := char_toNat_valid c
      rw [List.flatMap_cons]
      by_cases h1 : c.toNat < 128
      · have henc : utf8EncodeChar c = [c.toNat] := by
          unfold utf8EncodeChar; dsimp only; rw [if_pos h1]
        rw [henc, List.cons_append, List.nil_append,
          utf8DecodeAux.eq_def]
        dsimp only
        rw [if_pos h1, Char.ofNat_toNat, ih f hlen]
      · by_cases h2 : c.toNat < 2048
        · have henc : utf8EncodeChar c
              = [192 + c.toNat / 64, 128 + c.toNat % 64] := by
            unfold utf8EncodeChar; dsimp only; rw [if_neg h1, if_pos h2]
          rw [henc, List.cons_append, List.cons_append, List.nil_append,
            utf8DecodeAux.eq_def]
          dsimp only
          rw [if_neg (show ¬(192 + c.toNat / 64 < 128) by omega),
            if_neg (show ¬(192 + c.toNat / 64 < 192) by omega),
            if_pos (show 192 + c.toNat / 64 < 224 by omega)]
          rw [if_pos (show isCont (128 + c.toNat % 64) = true by
            simp only [isCont, Bool.and_eq_true, decide_eq_true_eq]
            omega)]
          rw [show (192 + c.toNat / 64 - 192) * 64 + (128 + c.toNat % 64 - 128)
              = c.toNat by omega]
          rw [if_pos ⟨by omega, hvalid⟩, Char.ofNat_toNat, ih f hlen]
        · by_cases h3 : c.toNat < 65536
          · have henc : utf8EncodeChar c
                = [224 + c.toNat / 4096, 128 + c.toNat / 64 % 64,
                   128 + c.toNat % 64] := by
              unfold utf8EncodeChar; dsimp only
              rw [if_neg h1, if_neg h2, if_pos h3]
            rw [henc, List.cons_append, List.cons_append, List.cons_append,
              List.nil_append, utf8DecodeAux.eq_def]
            dsimp only
            rw [if_neg (show ¬(224 + c.toNat / 4096 < 128) by omega),
              if_neg (show ¬(224 + c.toNat / 4096 < 192) by omega),
              if_neg (show ¬(224 + c.toNat / 4096 < 224) by omega),
              if_pos (show 224 + c.toNat / 4096 < 240 by omega)]
            rw [if_pos (show (isCont (128 + c.toNat / 64 % 64)
                && isCont (128 + c.toNat % 64)) = true by
              simp only [isCont, Bool.and_eq_true, decide_eq_true_eq]
              omega)]
            rw [show (224 + c.toNat / 4096 - 224) * 4096
                + (128 + c.toNat / 64 % 64 - 128) * 64
                + (128 + c.toNat % 64 - 128) = c.toNat by omega]
            rw [if_pos ⟨by omega, hvalid⟩, Char.ofNat_toNat, ih f hlen]
          · have hup : c.toNat < 1114112 := by
              rcases hvalid with h | h
              · omega
              · exact h.2
            have henc : utf8EncodeChar c
                = [240 + c.toNat / 262144, 128 + c.toNat / 4096 % 64,
                   128 + c.toNat / 64 % 64, 128 + c.toNat % 64] := by
              unfold utf8EncodeChar; dsimp only
              rw [if_neg h1, if_neg h2, if_neg h3]
            rw [henc, List.cons_append, List.cons_append, List.cons_append,
              List.cons_append, List.nil_append, utf8DecodeAux.eq_def]
            dsimp only
            rw [if_neg (show ¬(240 + c.toNat / 262144 < 128) by omega),
              if_neg (show ¬(240 + c.toNat / 262144 < 192) by omega),
              if_neg (show ¬(240 + c.toNat / 262144 < 224) by omega),
              if_neg (show ¬(240 + c.toNat / 262144 < 240) by omega),
              if_pos (show 240 + c.toNat / 262144 < 248 by omega)]
            rw [if_pos (show (isCont (128 + c.toNat / 4096 % 64)
                && isCont (128 + c.toNat / 64 % 64)
                && isCont (128 + c.toNat % 64)) = true by
              simp only [isCont, Bool.and_eq_true, decide_eq_true_eq]
              omega)]
            rw [show (240 + c.toNat / 262144 - 240) * 262144
                + (128 + c.toNat / 4096 % 64 - 128) * 4096
                + (128 + c.toNat / 64 % 64 - 128) * 64
                + (128 + c.toNat % 64 - 128) = c.toNat by omega]
            rw [if_pos ⟨by omega, hvalid⟩, Char.ofNat_toNat, ih f hlen]

theorem utf8Encode_length_ge (s : String) : s.data.length ≤ (utf8Encode s).length := by
  unfold utf8Encode
  induction s.data with
  | nil => simp
  | cons c cs ih =>
    rw [List.flatMap_cons, List.length_append, List.length_cons]
    have h1le : 1 ≤ (utf8EncodeChar c).length := by
      unfold utf8EncodeChar
      dsimp only
      by_cases h1 : c.toNat < 128
      · simp [h1]
      · by_cases h2 : c.toNat < 2048
        · simp [h1, h2]
        · by_cases h3 : c.toNat < 65536 <;> simp [h1, h2, h3]
    omega

/-- `buffer.toString('utf8')` inverts `Buffer.from(text, 'utf8')`. -/
theorem utf8DecodeLossy_encode (s : String) : utf8DecodeLossy (utf8Encode s) = s := by
  unfold utf8DecodeLossy
  rw [show utf8Encode s = s.data.flatMap utf8EncodeChar from rfl,
    utf8DecodeAux_encode s.data _ (by
      have := utf8Encode_length_ge s
      simpa [utf8Encode] using this)]

/-! ## Base64 and URL-safe base64 (`crypto-utils.js`)

`Buffer.toString('base64')` (standard alphabet, padded) and the lenient
`Buffer.from(text, 'base64')` decoder (invalid characters and `=` are
ignored; a trailing partial quantum yields its complete bytes), plus the
`+`/`-`, `/`/`_` substitution of `convertBase64ToURLSafe` /
`convertBase64FromURLSafe`. -/

/-- Character for a 6-bit value. -/
def b64Char (n : Nat) : Char :=
  if n < 26 then Char.ofNat (65 + n)
  else if n < 52 then Char.ofNat (71 + n)
  else if n < 62 then Char.ofNat (n - 4)
  else if n = 62 then '+'
  else '/'

/-- 6-bit value of a base64 character (`none` for non-alphabet). -/
def b64CharVal (c : Char) : Option Nat :=
  if 65 ≤ c.toNat ∧ c.toNat ≤ 90 then some (c.toNat - 65)
  else if 97 ≤ c.toNat ∧ c.toNat ≤ 122 then some (c.toNat - 71)
  else if 48 ≤ c.toNat ∧ c.toNat ≤ 57 then some (c.toNat + 4)
  else if c = '+' then some 62
  else if c = '/' then some 63
  else none

/-- `Buffer.prototype.toString('base64')`: 3-byte groups to 4 characters,
with `=` padding. -/
def b64Encode : List Nat → List Char
  | b0 :: b1 :: b2 :: rest =>
    b64Char (b0 / 4) :: b64Char (b0 % 4 * 16 + b1 / 16)
      :: b64Char (b1 % 16 * 4 + b2 / 64) :: b64Char (b2 % 64) :: b64Encode rest
  | [b0, b1] =>
    [b64Char (b0 / 4), b64Char (b0 % 4 * 16 + b1 / 16), b64Char (b1 % 16 * 4), '=']
  | [b0] => [b64Char (b0 / 4), b64Char (b0 % 4 * 16), '=', '=']
  | [] => []

/-- 6-bit values of the valid base64 characters of a string (Node ignores
invalid characters and padding when decoding). -/
def b64Vals (cs : List Char) : List Nat := cs.filterMap b64CharVal

/-- Reassemble bytes from 6-bit values; trailing bits beyond a whole byte
are dropped, as Node does. -/
def b64DecodeVals : List Nat → List Nat
  | v0 :: v1 :: v2 :: v3 :: rest =>
    (v0 * 4 + v1 / 16) :: (v1 % 16 * 16 + v2 / 4) :: (v2 % 4 * 64 + v3)
      :: b64DecodeVals rest
  | [v0, v1, v2] => [v0 * 4 + v1 / 16, v1 % 16 * 16 + v2 / 4]
  | [v0, v1] => [v0 * 4 + v1 / 16]
  | _ => []

/-- `Buffer.from(text, 'base64')`. -/
def b64Decode (cs : List Char) : List Nat := b64DecodeVals (b64Vals cs)

/-- The `+`→`-`, `/`→`_` substitution of `convertBase64ToURLSafe`. -/
def urlSafeSub (c : Char) : Char :=
  if c = '+' then '-' else if c = '/' then '_' else c

/-- `convertBase64ToURLSafe(encodedData)`. -/
def convertBase64ToURLSafe (s : String) : String :=
  String.mk (s.data.map urlSafeSub)

/-- The `-`→`+`, `_`→`/` substitution of `convertBase64FromURLSafe`. -/
def urlUnsafeSub (c : Char) : Char :=
  if c = '-' then '+' else if c = '_' then '/' else c

/-- `convertBase64FromURLSafe(encodedData)`. -/
def convertBase64FromURLSafe (s : String) : String :=
  String.mk (s.data.map urlUnsafeSub)

/-- `toURLSafeBase64(data)` on raw bytes. -/
def toURLSafeBase64 (bs : List Nat) : String :=
  convertBase64ToURLSafe (String.mk (b64Encode bs))

/-- `fromURLSafeBase64(data)` with the encoding omitted (raw bytes). -/
def fromURLSafeBase64Bytes (s : String) : List Nat :=
  b64Decode (convertBase64FromURLSafe s).data

/-- `fromURLSafeBase64(data, 'utf8')`. -/
def fromURLSafeBase64Utf8 (s : String) : String :=
  utf8DecodeLossy (fromURLSafeBase64Bytes s)

theorem b64Char_props : ∀ n : Fin 64,
    b64CharVal (b64Char n.val) = some n.val ∧
    b64Char n.val ≠ '-' ∧ b64Char n.val ≠ '_' ∧ b64Char n.val ≠ '=' := by
  decide

theorem b64CharVal_pad : b64CharVal '=' = none := by decide

theorem urlUnsafeSub_urlSafeSub (c : Char) (h1 : c ≠ '-') (h2 : c ≠ '_') :
    urlUnsafeSub (urlSafeSub c) = c := by
  unfold urlSafeSub urlUnsafeSub
  by_cases hp : c = '+'
  · simp [hp]
  · by_cases hs : c = '/'
    · simp [hp, hs]
    · simp [hp, hs, h1, h2]

theorem b64Encode_chars (bs : List Nat) (h : ∀ b ∈ bs, b < 256) :
    ∀ c ∈ b64Encode bs, c ≠ '-' ∧ c ≠ '_' := by
  induction bs using b64Encode.induct with
  | case1 b0 b1 b2 rest ih =>
    have h0 : b0 < 256 := h b0 (by simp)
    have h1 : b1 < 256 := h b1 (by simp)
    have h2 : b2 < 256 := h b2 (by simp)
    intro c hc
    rw [b64Encode] at hc
    simp only [List.mem_cons] at hc
    rcases hc with rfl | rfl | rfl | rfl | hc
    · have := b64Char_props ⟨b0 / 4, by omega⟩
      exact ⟨this.2.1, this.2.2.1⟩
    · have := b64Char_props ⟨b0 % 4 * 16 + b1 / 16, by omega⟩
      exact ⟨this.2.1, this.2.2.1⟩
    · have := b64Char_props ⟨b1 % 16 * 4 + b2 / 64, by omega⟩
      exact ⟨this.2.1, this.2.2.1⟩
    · have := b64Char_props ⟨b2 % 64, by omega⟩
      exact ⟨this.2.1, this.2.2.1⟩
    · exact ih (fun b hb => h b (by simp [hb])) c hc
  | case2 b0 b1 =>
    have h0 : b0 < 256 := h b0 (by simp)
    have h1 : b1 < 256 := h b1 (by simp)
    intro c hc
    rw [b64Encode] at hc
    simp only [List.mem_cons, List.not_mem_nil, or_false] at hc
    rcases hc with rfl | rfl | rfl | rfl
    · have := b64Char_props ⟨b0 / 4, by omega⟩
      exact ⟨this.2.1, this.2.2.1⟩
    · have := b64Char_props ⟨b0 % 4 * 16 + b1 / 16, by omega⟩
      exact ⟨this.2.1, this.2.2.1⟩
    · have := b64Char_props ⟨b1 % 16 * 4, by omega⟩
      exact ⟨this.2.1, this.2.2.1⟩
    · exact ⟨by decide, by decide⟩
  | case3 b0 =>
    have h0 : b0 < 256 := h b0 (by simp)
    intro c hc
    rw [b64Encode] at hc
    simp only [List.mem_cons, List.not_mem_nil, or_false] at hc
    rcases hc with rfl | rfl | rfl | rfl
    · have := b64Char_props ⟨b0 / 4, by omega⟩
      exact ⟨this.2.1, this.2.2.1⟩
    · have := b64Char_props ⟨b0 % 4 * 16, by omega⟩
      exact ⟨this.2.1, this.2.2.1⟩
    · exact ⟨by decide, by decide⟩
    · exact ⟨by decide, by decide⟩
  | case4 =>
    intro c hc
    simp [b64Encode] at hc

/-- Base64 decoding inverts base64 encoding on byte lists. -/
theorem b64Decode_b64Encode (bs : List Nat) :
    (∀ b ∈ bs, b < 256) → b64Decode (b64Encode bs) = bs := by
  unfold b64Decode b64Vals
  induction bs using b64Encode.induct with
  | case1 b0 b1 b2 rest ih =>
    intro h
    have h0 : b0 < 256 := h b0 (by simp)
    have h1 : b1 < 256 := h b1 (by simp)
    have h2 : b2 < 256 := h b2 (by simp)
    have hv0 := (b64Char_props ⟨b0 / 4, by omega⟩).1
    have hv1 := (b64Char_props ⟨b0 % 4 * 16 + b1 / 16, by omega⟩).1
    have hv2 := (b64Char_props ⟨b1 % 16 * 4 + b2 / 64, by omega⟩).1
    have hv3 := (b64Char_props ⟨b2 % 64, by omega⟩).1
    rw [b64Encode]
    rw [List.filterMap_cons, List.filterMap_cons, List.filterMap_cons,
      List.filterMap_cons]
    simp only [hv0, hv1, hv2, hv3]
    rw [b64DecodeVals]
    rw [show b0 / 4 * 4 + (b0 % 4 * 16 + b1 / 16) / 16 = b0 by omega,
      show (b0 % 4 * 16 + b1 / 16) % 16 * 16 + (b1 % 16 * 4 + b2 / 64) / 4 = b1
        by omega,
      show (b1 % 16 * 4 + b2 / 64) % 4 * 64 + b2 % 64 = b2 by omega,
      ih (fun b hb => h b (by simp [hb]))]
  | case2 b0 b1 =>
    intro h
    have h0 : b0 < 256 := h b0 (by simp)
    have h1 : b1 < 256 := h b1 (by simp)
    have hv0 := (b64Char_props ⟨b0 / 4, by omega⟩).1
    have hv1 := (b64Char_props ⟨b0 % 4 * 16 + b1 / 16, by omega⟩).1
    have hv2 := (b64Char_props ⟨b1 % 16 * 4, by omega⟩).1
    rw [b64Encode]
    rw [List.filterMap_cons, List.filterMap_cons, List.filterMap_cons,
      List.filterMap_cons, List.filterMap_nil]
    simp only [hv0, hv1, hv2, b64CharVal_pad]
    rw [b64DecodeVals]
    rw [show b0 / 4 * 4 + (b0 % 4 * 16 + b1 / 16) / 16 = b0 by omega,
      show (b0 % 4 * 16 + b1 / 16) % 16 * 16 + b1 % 16 * 4 / 4 = b1 by omega]
  | case3 b0 =>
    intro h
    have h0 : b0 < 256 := h b0 (by simp)
    have hv0 := (b64Char_props ⟨b0 / 4, by omega⟩).1
    have hv1 := (b64Char_props ⟨b0 % 4 * 16, by omega⟩).1
    rw [b64Encode]
    rw [List.filterMap_cons, List.filterMap_cons, List.filterMap_cons,
      List.filterMap_cons, List.filterMap_nil]
    simp only [hv0, hv1, b64CharVal_pad]
    rw [b64DecodeVals]
    rw [show b0 / 4 * 4 + b0 % 4 * 16 / 16 = b0 by omega]
  | case4 =>
    intro h
    rfl

/-- URL-safe base64 decoding (raw bytes) inverts URL-safe encoding. -/
theorem fromURLSafeBase64Bytes_toURLSafeBase64 (bs : List Nat)
    (h : ∀ b ∈ bs, b < 256) :
    fromURLSafeBase64Bytes (toURLSafeBase64 bs) = bs := by
  unfold fromURLSafeBase64Bytes toURLSafeBase64 convertBase64ToURLSafe
    convertBase64FromURLSafe
  have hdata : (String.mk ((b64Encode bs).map urlSafeSub)).data
      = (b64Encode bs).map urlSafeSub := rfl
  rw [hdata]
  have hdata2 : ∀ l : List Char, (String.mk l).data = l := fun _ => rfl
  rw [hdata2, List.map_map]
  have hmap : (b64Encode bs).map (urlUnsafeSub ∘ urlSafeSub) = b64Encode bs := by
    have := List.map_congr_left (l := b64Encode bs)
      (f := urlUnsafeSub ∘ urlSafeSub) (g := id) ?_
    · simpa using this
    · intro c hc
      obtain ⟨hm, hu⟩ := b64Encode_chars bs h c hc
      simp [Function.comp, urlUnsafeSub_urlSafeSub c hm hu]
  rw [hmap]
  exact b64Decode_b64Encode bs h

/-- The URL-safe substitution leaves no `+` or `/` in the output. -/
theorem toURLSafeBase64_no_plus_slash (bs : List Nat) :
    ∀ c ∈ (toURLSafeBase64 bs).data, c ≠ '+' ∧ c ≠ '/' := by
  unfold toURLSafeBase64 convertBase64ToURLSafe
  intro c hc
  have hdata : (String.mk ((b64Encode bs).map urlSafeSub)).data
      = (b64Encode bs).map urlSafeSub := rfl
  rw [hdata] at hc
  obtain ⟨c0, -, rfl⟩ := List.mem_map.mp hc
  unfold urlSafeSub
  by_cases hp : c0 = '+'
  · simp [hp]
  · by_cases hs : c0 = '/'
    · simp [hp, hs]
    · simp [hp, hs]

/-! ## JSON (`JSON.stringify` / `JSON.parse`)

Serialisation of `JVal` exactly as `JSON.stringify` emits it (no
whitespace, `"`/`\`/control-character escaping, insertion-ordered keys),
and a fuel-indexed recursive-descent parser modelling `JSON.parse`
(whitespace tolerated, duplicate object keys resolved last-wins).
The model's numbers are integers: the parser rejects fraction/exponent
forms, which the token layer never produces. -/

def lbrace : Char := Char.ofNat 123

def rbrace : Char := Char.ofNat 125

/-- Digit loop for decimal rendering; the fuel bounds the digit count. -/
def natToDecGo : Nat → Nat → List Char
  | 0, n => [base36Digit n]
  | fuel + 1, n =>
    if n < 10 then [base36Digit n]
    else natToDecGo fuel (n / 10) ++ [base36Digit (n % 10)]

/-- Decimal digit expansion, most significant first. -/
def natToDec (n : Nat) : List Char := natToDecGo n n

theorem natToDecGo_congr (n : Nat) : ∀ f1 f2, n ≤ f1 → n ≤ f2 →
    natToDecGo f1 n = natToDecGo f2 n := by
  induction n using Nat.strong_induction_on with
  | _ n ih =>
    intro f1 f2 h1 h2
    cases f1 with
    | zero =>
      obtain rfl : n = 0 := Nat.le_zero.mp h1
      cases f2 with
      | zero => rfl
      | succ f2 => simp [natToDecGo]
    | succ f1 =>
      cases f2 with
      | zero =>
        obtain rfl : n = 0 := Nat.le_zero.mp h2
        simp [natToDecGo]
      | succ f2 =>
        show natToDecGo (f1 + 1) n = natToDecGo (f2 + 1) n
        rw [natToDecGo, natToDecGo]
        by_cases h : n < 10
        · rw [if_pos h, if_pos h]
        · rw [if_neg h, if_neg h,
            ih (n / 10) (Nat.div_lt_self (by omega) (by omega)) f1 f2
              (by omega) (by omega)]

/-- The recursion equation of `natToDec` in its natural form. -/
theorem natToDec_eq (n : Nat) :
    natToDec n
      = if n < 10 then [base36Digit n]
        else natToDec (n / 10) ++ [base36Digit (n % 10)] := by
  unfold natToDec
  by_cases h : n < 10
  · rw [if_pos h]
    cases n with
    | zero => rfl
    | succ m => rw [natToDecGo, if_pos h]
  · rw [if_neg h]
    obtain ⟨m, rfl⟩ : ∃ m, n = m + 1 := ⟨n - 1, by omega⟩
    rw [natToDecGo, if_neg h,
      natToDecGo_congr ((m + 1) / 10) m ((m + 1) / 10)
        (by
          have := Nat.div_lt_self (show 0 < m + 1 by omega)
            (show 1 < 10 by omega)
          omega)
        (le_refl _)]

/-- Decimal rendering of an integer (as `JSON.stringify` emits numbers). -/
def intToDec (i : Int) : List Char :=
  if i < 0 then '-' :: natToDec i.natAbs else natToDec i.toNat

/-- Lower-case hex digit. -/
def hexDigit (n : Nat) : Char :=
  if n < 10 then Char.ofNat (48 + n) else Char.ofNat (87 + n)

/-- `JSON.stringify` escape of one character. -/
def jsonEscapeChar (c : Char) : List Char :=
  if c = '"' then ['\\', '"']
  else if c = '\\' then ['\\', '\\']
  else if c.toNat = 8 then ['\\', 'b']
  else if c.toNat = 9 then ['\\', 't']
  else if c.toNat = 10 then ['\\', 'n']
  else if c.toNat = 12 then ['\\', 'f']
  else if c.toNat = 13 then ['\\', 'r']
  else if c.toNat < 32 then
    ['\\', 'u', '0', '0', hexDigit (c.toNat / 16), hexDigit (c.toNat % 16)]
  else [c]

/-- A quoted, escaped JSON string literal. -/
def jsonQuote (s : String) : List Char :=
  '"' :: (s.data.flatMap jsonEscapeChar ++ ['"'])

mutual

/-- `JSON.stringify` of a JSON value. -/
def stringifyJVal : JVal → List Char
  | .jnull => ['n', 'u', 'l', 'l']
  | .jbool true => ['t', 'r', 'u', 'e']
  | .jbool false => ['f', 'a', 'l', 's', 'e']
  | .jnum n => intToDec n
  | .jstr s => jsonQuote s
  | .jarr xs => '[' :: (stringifyArr xs ++ [']'])
  | .jobj kvs => lbrace :: (stringifyObj kvs ++ [rbrace])

/-- Array elements, comma separated. -/
def stringifyArr : List JVal → List Char
  | [] => []
  | [v] => stringifyJVal v
  | v :: rest => stringifyJVal v ++ ',' :: stringifyArr rest

/-- Object members, comma separated. -/
def stringifyObj : List (String × JVal) → List Char
  | [] => []
  | [kv] => jsonQuote kv.1 ++ ':' :: stringifyJVal kv.2
  | kv :: rest => jsonQuote kv.1 ++ ':' :: stringifyJVal kv.2 ++ ',' :: stringifyObj rest

end

/-- Serialised form of a whole string value. -/
def jsonStringify (v : JVal) : String := String.mk (stringifyJVal v)

mutual

/-- Well-formedness of a JSON value as a JavaScript object graph:
every object has pairwise-distinct keys. -/
def jvalWF : JVal → Bool
  | .jnull => true
  | .jbool _ => true
  | .jnum _ => true
  | .jstr _ => true
  | .jarr xs => jvalWFList xs
  | .jobj kvs => nodupKeysB kvs && jvalWFObj kvs

def jvalWFList : List JVal → Bool
  | [] => true
  | x :: r => jvalWF x && jvalWFList r

def jvalWFObj : List (String × JVal) → Bool
  | [] => true
  | kv :: r => jvalWF kv.2 && jvalWFObj r

def nodupKeysB : List (String × JVal) → Bool
  | [] => true
  | (k, _) :: rest => !(rest.any (fun kv => kv.1 == k)) && nodupKeysB rest

end

/-- Build a JavaScript object from parsed members (duplicate keys resolve
last-wins, first position, as `JSON.parse` does). -/
def objFromPairs (l : List (String × JVal)) : JSObj :=
  l.foldl (fun acc kv => objSet acc kv.1 kv.2) []

/-- JSON whitespace. -/
def jsonWsChar (c : Char) : Bool :=
  (c == ' ') || (c == '\t') || (c == '\n') || (c == '\r')

/-- Drop leading JSON whitespace. -/
def skipJsonWs : List Char → List Char
  | [] => []
  | c :: rest => if jsonWsChar c then skipJsonWs rest else c :: rest

/-- Short escape map of `JSON.parse`. -/
def escMap (e : Char) : Option Char :=
  if e = '"' then some '"'
  else if e = '\\' then some '\\'
  else if e = '/' then some '/'
  else if e = 'b' then some (Char.ofNat 8)
  else if e = 'f' then some (Char.ofNat 12)
  else if e = 'n' then some (Char.ofNat 10)
  else if e = 'r' then some (Char.ofNat 13)
  else if e = 't' then some (Char.ofNat 9)
  else none

/-- Hex digit value. -/
def parseHexDigit (c : Char) : Option Nat :=
  if 48 ≤ c.toNat ∧ c.toNat ≤ 57 then some (c.toNat - 48)
  else if 97 ≤ c.toNat ∧ c.toNat ≤ 102 then some (c.toNat - 87)
  else if 65 ≤ c.toNat ∧ c.toNat ≤ 70 then some (c.toNat - 55)
  else none

/-- JSON string body parser (after the opening quote): returns the decoded
characters and the input after the closing quote. -/
def parseJsonString : Nat → List Char → Option (List Char × List Char)
  | 0, _ => none
  | _ + 1, [] => none
  | fuel + 1, c :: rest =>
    if c = '"' then some ([], rest)
    else if c = '\\' then
      match rest with
      | [] => none
      | e :: r2 =>
        if e = 'u' then
          match r2 with
          | h1 :: h2 :: h3 :: h4 :: r3 =>
            match parseHexDigit h1, parseHexDigit h2,
                parseHexDigit h3, parseHexDigit h4 with
            | some a, some b, some c2, some d =>
              let v := a * 4096 + b * 256 + c2 * 16 + d
              if Nat.isValidChar v then
                (parseJsonString fuel r3).map (fun pr => (Char.ofNat v :: pr.1, pr.2))
              else none
            | _, _, _, _ => none
          | _ => none
        else
          match escMap e with
          | some ec => (parseJsonString fuel r2).map (fun pr => (ec :: pr.1, pr.2))
          | none => none
    else if c.toNat < 32 then none
    else (parseJsonString fuel rest).map (fun pr => (c :: pr.1, pr.2))

/-- Longest prefix of decimal digits, as values. -/
def decDigitsPrefix : List Char → List Nat × List Char
  | [] => ([], [])
  | c :: rest =>
    if 48 ≤ c.toNat ∧ c.toNat ≤ 57 then
      let p := decDigitsPrefix rest
      ((c.toNat - 48) :: p.1, p.2)
    else ([], c :: rest)

/-- Accumulate decimal digits. -/
def foldDec (ds : List Nat) : Nat := ds.foldl (fun a d => a * 10 + d) 0

/-- The character after an integer literal must not extend it into a
fraction or exponent (which the integer-valued model does not represent). -/
def numBoundary : List Char → Bool
  | [] => true
  | c :: _ => !(c == '.') && !(c == 'e') && !(c == 'E')

/-- JSON integer literal after an optional leading minus sign. -/
def parseJsonNumAfterSign (neg : Bool) (cs : List Char) : Option (JVal × List Char) :=
  let p := decDigitsPrefix cs
  if p.1.isEmpty then none
  else if 1 < p.1.length ∧ p.1.headD 0 = 0 then none
  else if numBoundary p.2 then
    some (.jnum ((if neg then -1 else 1) * (foldDec p.1 : Int)), p.2)
  else none

mutual

/-- `JSON.parse` value parser (fuel-indexed recursive descent). -/
def parseJVal : Nat → List Char → Option (JVal × List Char)
  | 0, _ => none
  | fuel + 1, cs0 =>
    match skipJsonWs cs0 with
    | [] => none
    | c :: rest =>
      if c = 'n' then
        match rest with
        | 'u' :: 'l' :: 'l' :: r => some (.jnull, r)
        | _ => none
      else if c = 't' then
        match rest with
        | 'r' :: 'u' :: 'e' :: r => some (.jbool true, r)
        | _ => none
      else if c = 'f' then
        match rest with
        | 'a' :: 'l' :: 's' :: 'e' :: r => some (.jbool false, r)
        | _ => none
      else if c = '"' then
        (parseJsonString fuel rest).map (fun pr => (.jstr (String.mk pr.1), pr.2))
      else if c = '-' then parseJsonNumAfterSign true rest
      else if 48 ≤ c.toNat ∧ c.toNat ≤ 57 then
        parseJsonNumAfterSign false (c :: rest)
      else if c = '[' then
        let r1 := skipJsonWs rest
        if r1.head? = some ']' then some (.jarr [], r1.tail)
        else (parseArrElems fuel r1).map (fun pr => (.jarr pr.1, pr.2))
      else if c = lbrace then
        let r1 := skipJsonWs rest
        if r1.head? = some rbrace then some (.jobj [], r1.tail)
        else (parseObjMembers fuel r1).map
          (fun pr => (.jobj (objFromPairs pr.1), pr.2))
      else none

/-- Array elements after `[` (at least one element). -/
def parseArrElems : Nat → List Char → Option (List JVal × List Char)
  | 0, _ => none
  | fuel + 1, cs =>
    match parseJVal fuel cs with
    | none => none
    | some (v, r1) =>
      match skipJsonWs r1 with
      | [] => none
      | c :: r2 =>
        if c = ',' then
          (parseArrElems fuel r2).map (fun pr => (v :: pr.1, pr.2))
        else if c = ']' then some ([v], r2)
        else none

/-- Object members after the opening brace (at least one member). -/
def parseObjMembers : Nat → List Char → Option (List (String × JVal) × List Char)
  | 0, _ => none
  | fuel + 1, cs =>
    match skipJsonWs cs with
    | [] => none
    | c :: r0 =>
      if c = '"' then
        match parseJsonString fuel r0 with
        | none => none
        | some (kchars, r1) =>
          match skipJsonWs r1 with
          | [] => none
          | c1 :: r2 =>
            if c1 = ':' then
              match parseJVal fuel r2 with
              | none => none
              | some (v, r3) =>
                match skipJsonWs r3 with
                | [] => none
                | c2 :: r4 =>
                  if c2 = ',' then
                    (parseObjMembers fuel r4).map
                      (fun pr => ((String.mk kchars, v) :: pr.1, pr.2))
                  else if c2 = rbrace then some ([(String.mk kchars, v)], r4)
                  else none
            else none
      else none

end

/-- `JSON.parse`: parse a value, insist the remainder is whitespace. -/
def jsonParse (s : String) : Option JVal :=
  match parseJVal (3 * s.data.length + 3) s.data with
  | some (v, rest) => if (skipJsonWs rest).isEmpty then some v else none
  | none => none

/-! ### Decimal literal round trip -/

/-- The terminator that follows a serialised value inside a JSON document:
end of input, `,`, `]` or the closing brace. -/
def restStop : List Char → Bool
  | [] => true
  | c :: _ => (c == ',') || (c == ']') || (c == rbrace)

theorem decDigit_props : ∀ m : Fin 10,
    (48 ≤ (base36Digit m.val).toNat ∧ (base36Digit m.val).toNat ≤ 57) ∧
    (base36Digit m.val).toNat - 48 = m.val ∧
    jsonWsChar (base36Digit m.val) = false ∧
    base36Digit m.val ≠ 'n' ∧ base36Digit m.val ≠ 't' ∧
    base36Digit m.val ≠ 'f' ∧ base36Digit m.val ≠ '"' ∧
    base36Digit m.val ≠ '-' ∧ base36Digit m.val ≠ '[' ∧
    base36Digit m.val ≠ lbrace := by decide

theorem natToDec_chars (n : Nat) :
    ∀ c ∈ natToDec n, 48 ≤ c.toNat ∧ c.toNat ≤ 57 := by
  induction n using Nat.strong_induction_on with
  | _ n ih =>
    intro c hc
    rw [natToDec_eq] at hc
    by_cases h : n < 10
    · rw [if_pos h] at hc
      obtain rfl := List.mem_singleton.mp hc
      exact (decDigit_props ⟨n, h⟩).1
    · rw [if_neg h] at hc
      rcases List.mem_append.mp hc with hc | hc
      · exact ih (n / 10) (Nat.div_lt_self (by omega) (by omega)) c hc
      · obtain rfl := List.mem_singleton.mp hc
        exact (decDigit_props ⟨n % 10, Nat.mod_lt _ (by omega)⟩).1

theorem natToDec_ne_nil (n : Nat) : natToDec n ≠ [] := by
  rw [natToDec_eq]
  by_cases h : n < 10
  · simp [h]
  · simp [h, natToDec_ne_nil (n / 10)]
  decreasing_by exact Nat.div_lt_self (by omega) (by omega)

theorem decDigitsPrefix_of_digits (xs rest : List Char)
    (hxs : ∀ c ∈ xs, 48 ≤ c.toNat ∧ c.toNat ≤ 57)
    (hrest : restStop rest = true) :
    decDigitsPrefix (xs ++ rest)
      = (xs.map (fun c => c.toNat - 48), rest) := by
  induction xs with
  | nil =>
    simp only [List.nil_append, List.map_nil]
    cases rest with
    | nil => rfl
    | cons c r =>
      unfold restStop at hrest
      simp only [Bool.or_eq_true, beq_iff_eq] at hrest
      unfold decDigitsPrefix
      rw [if_neg (by rcases hrest with (rfl | rfl) | rfl <;> decide)]
  | cons c xs ih =>
    have hc := hxs c (by simp)
    simp only [List.cons_append]
    unfold decDigitsPrefix
    rw [if_pos hc, ih (fun x hx => hxs x (by simp [hx]))]
    simp

theorem foldl_natToDec (n : Nat) : ∀ a : Nat,
    ((natToDec n).map (fun c => c.toNat - 48)).foldl (fun x d => x * 10 + d) a
      = a * 10 ^ (natToDec n).length + n := by
  induction n using Nat.strong_induction_on with
  | _ n ih =>
    intro a
    rw [natToDec_eq]
    by_cases h : n < 10
    · rw [if_pos h]
      obtain ⟨-, h2, -⟩ := decDigit_props ⟨n, h⟩
      simp [h2]
    · rw [if_neg h]
      obtain ⟨-, h2, -⟩ := decDigit_props ⟨n % 10, Nat.mod_lt _ (by omega)⟩
      rw [List.map_append, List.foldl_append,
        ih (n / 10) (Nat.div_lt_self (by omega) (by omega)) a]
      simp only [List.map_cons, List.map_nil, List.foldl_cons, List.foldl_nil,
        h2, List.length_append, List.length_map, List.length_cons,
        List.length_nil]
      have hdm : n / 10 * 10 + n % 10 = n := Nat.div_add_mod' n 10
      calc (a * 10 ^ (natToDec (n / 10)).length + n / 10) * 10 + n % 10
      _ = a * (10 ^ (natToDec (n / 10)).length * 10)
            + (n / 10 * 10 + n % 10) := by ring
      _ = a * 10 ^ ((natToDec (n / 10)).length + (0 + 1)) + n := by
            rw [hdm]; ring

theorem natToDec_head_nonzero (n : Nat) (hn : 1 ≤ n) :
    ∃ c r, natToDec n = c :: r ∧ c.toNat - 48 ≠ 0 := by
  induction n using Nat.strong_induction_on with
  | _ n ih =>
    rw [natToDec_eq]
    by_cases h : n < 10
    · rw [if_pos h]
      refine ⟨base36Digit n, [], rfl, ?_⟩
      obtain ⟨-, h2, -⟩ := decDigit_props ⟨n, h⟩
      have h2' : (base36Digit n).toNat - 48 = n := h2
      omega
    · rw [if_neg h]
      obtain ⟨c, r, hcr, hc⟩ := ih (n / 10)
        (Nat.div_lt_self (by omega) (by omega)) (by omega)
      exact ⟨c, r ++ [base36Digit (n % 10)], by rw [hcr]; rfl, hc⟩

theorem restStop_numBoundary (rest : List Char) (h : restStop rest = true) :
    numBoundary rest = true := by
  cases rest with
  | nil => rfl
  | cons c r =>
    unfold restStop at h
    simp only [Bool.or_eq_true, beq_iff_eq] at h
    unfold numBoundary
    rcases h with (rfl | rfl) | rfl <;> rfl

/-- Parsing a serialised integer literal recovers the integer. -/
theorem parseNum_intToDec (i : Int) (rest : List Char)
    (hrest : restStop rest = true) :
    (if i < 0 then
      parseJsonNumAfterSign true (natToDec i.natAbs ++ rest)
    else
      parseJsonNumAfterSign false (natToDec i.toNat ++ rest))
      = some (.jnum i, rest) := by
  have hnum := restStop_numBoundary rest hrest
  by_cases hi : i < 0
  · rw [if_pos hi]
    unfold parseJsonNumAfterSign
    rw [decDigitsPrefix_of_digits _ _ (natToDec_chars _) hrest]
    dsimp only
    rw [if_neg (by simp [natToDec_ne_nil i.natAbs])]
    obtain ⟨c, r, hcr, hc⟩ := natToDec_head_nonzero i.natAbs (by omega)
    rw [if_neg (by
      rintro ⟨-, hz⟩
      rw [hcr] at hz
      simp only [List.map_cons, List.headD_cons] at hz
      exact hc hz)]
    rw [if_pos hnum]
    unfold foldDec
    rw [foldl_natToDec]
    simp only [Nat.zero_mul, Nat.zero_add]
    simp only [Option.some.injEq, Prod.mk.injEq, JVal.jnum.injEq]
    refine ⟨?_, trivial⟩
    simp only [if_true]
    omega
  · rw [if_neg hi]
    unfold parseJsonNumAfterSign
    rw [decDigitsPrefix_of_digits _ _ (natToDec_chars _) hrest]
    dsimp only
    rw [if_neg (by simp [natToDec_ne_nil i.toNat])]
    rw [if_neg (by
      rintro ⟨hlen, hz⟩
      have h10 : 10 ≤ i.toNat := by
        by_contra hlt
        push_neg at hlt
        rw [natToDec_eq, if_pos hlt] at hlen
        simp at hlen
      obtain ⟨c, r, hcr, hc⟩ := natToDec_head_nonzero i.toNat (by omega)
      rw [hcr] at hz
      simp only [List.map_cons, List.headD_cons] at hz
      exact hc hz)]
    rw [if_pos hnum]
    unfold foldDec
    rw [foldl_natToDec]
    simp only [Nat.zero_mul, Nat.zero_add]
    simp only [Option.some.injEq, Prod.mk.injEq, JVal.jnum.injEq]
    refine ⟨?_, trivial⟩
    rw [if_neg (by simp : ¬(false = true))]
    omega

/-! ### String literal round trip -/

theorem parseHexDigit_hexDigit : ∀ m : Fin 16,
    parseHexDigit (hexDigit m.val) = some m.val := by decide

/-- Parsing a serialised string body recovers the characters. -/
theorem parseJsonString_quote (cs : List Char) : ∀ (fuel : Nat) (rest : List Char),
    cs.length + 1 ≤ fuel →
    parseJsonString fuel (cs.flatMap jsonEscapeChar ++ ('"' :: rest))
      = some (cs, rest) := by
  induction cs with
  | nil =>
    intro fuel rest hfuel
    cases fuel with
    | zero => omega
    | succ f =>
      rw [List.flatMap_nil, List.nil_append, parseJsonString.eq_def]
      dsimp only
      rw [if_pos rfl]
  | cons c cs ih =>
    intro fuel rest hfuel
    cases fuel with
    | zero => simp at hfuel
    | succ f =>
      have hf : cs.length + 1 ≤ f := by simpa using hfuel
      rw [List.flatMap_cons]
      by_cases hq : c = '"'
      · have henc : jsonEscapeChar c = ['\\', '"'] := by
          unfold jsonEscapeChar; rw [if_pos hq]
        rw [henc]
        simp only [List.cons_append, List.nil_append]
        rw [parseJsonString.eq_def]
        dsimp only
        rw [if_neg (show ¬('\\' = '"') by decide), if_pos rfl,
          if_neg (show ¬('"' = 'u') by decide),
          show escMap '"' = some '"' from by decide,
          ih f rest hf, hq]
        rfl
      · by_cases hb : c = '\\'
        · have henc : jsonEscapeChar c = ['\\', '\\'] := by
            unfold jsonEscapeChar; rw [if_neg hq, if_pos hb]
          rw [henc]
          simp only [List.cons_append, List.nil_append]
          rw [parseJsonString.eq_def]
          dsimp only
          rw [if_neg (show ¬('\\' = '"') by decide), if_pos rfl,
            if_neg (show ¬('\\' = 'u') by decide),
            show escMap '\\' = some '\\' from by decide,
            ih f rest hf, hb]
          rfl
        · by_cases h8 : c.toNat = 8
          · have hc : c = Char.ofNat 8 := by rw [← Char.ofNat_toNat c, h8]
            have henc : jsonEscapeChar c = ['\\', 'b'] := by
              unfold jsonEscapeChar; rw [if_neg hq, if_neg hb, if_pos h8]
            rw [henc]
            simp only [List.cons_append, List.nil_append]
            rw [parseJsonString.eq_def]
            dsimp only
            rw [if_neg (show ¬('\\' = '"') by decide), if_pos rfl,
              if_neg (show ¬('b' = 'u') by decide),
              show escMap 'b' = some (Char.ofNat 8) from by decide,
              ih f rest hf, hc]
            rfl
          · by_cases h9 : c.toNat = 9
            · have hc : c = Char.ofNat 9 := by rw [← Char.ofNat_toNat c, h9]
              have henc : jsonEscapeChar c = ['\\', 't'] := by
                unfold jsonEscapeChar
                rw [if_neg hq, if_neg hb, if_neg h8, if_pos h9]
              rw [henc]
              simp only [List.cons_append, List.nil_append]
              rw [parseJsonString.eq_def]
              dsimp only
              rw [if_neg (show ¬('\\' = '"') by decide), if_pos rfl,
                if_neg (show ¬('t' = 'u') by decide),
                show escMap 't' = some (Char.ofNat 9) from by decide,
                ih f rest hf, hc]
              rfl
            · by_cases h10 : c.toNat = 10
              · have hc : c = Char.ofNat 10 := by rw [← Char.ofNat_toNat c, h10]
                have henc : jsonEscapeChar c = ['\\', 'n'] := by
                  unfold jsonEscapeChar
                  rw [if_neg hq, if_neg hb, if_neg h8, if_neg h9, if_pos h10]
                rw [henc]
                simp only [List.cons_append, List.nil_append]
                rw [parseJsonString.eq_def]
                dsimp only
                rw [if_neg (show ¬('\\' = '"') by decide), if_pos rfl,
                  if_neg (show ¬('n' = 'u') by decide),
                  show escMap 'n' = some (Char.ofNat 10) from by decide,
                  ih f rest hf, hc]
                rfl
              · by_cases h12 : c.toNat = 12
                · have hc : c = Char.ofNat 12 := by
                    rw [← Char.ofNat_toNat c, h12]
                  have henc : jsonEscapeChar c = ['\\', 'f'] := by
                    unfold jsonEscapeChar
                    rw [if_neg hq, if_neg hb, if_neg h8, if_neg h9, if_neg h10,
                      if_pos h12]
                  rw [henc]
                  simp only [List.cons_append, List.nil_append]
                  rw [parseJsonString.eq_def]
                  dsimp only
                  rw [if_neg (show ¬('\\' = '"') by decide), if_pos rfl,
                    if_neg (show ¬('f' = 'u') by decide),
                    show escMap 'f' = some (Char.ofNat 12) from by decide,
                    ih f rest hf, hc]
                  rfl
                · by_cases h13 : c.toNat = 13
                  · have hc : c = Char.ofNat 13 := by
                      rw [← Char.ofNat_toNat c, h13]
                    have henc : jsonEscapeChar c = ['\\', 'r'] := by
                      unfold jsonEscapeChar
                      rw [if_neg hq, if_neg hb, if_neg h8, if_neg h9,
                        if_neg h10, if_neg h12, if_pos h13]
                    rw [henc]
                    simp only [List.cons_append, List.nil_append]
                    rw [parseJsonString.eq_def]
                    dsimp only
                    rw [if_neg (show ¬('\\' = '"') by decide), if_pos rfl,
                      if_neg (show ¬('r' = 'u') by decide),
                      show escMap 'r' = some (Char.ofNat 13) from by decide,
                      ih f rest hf, hc]
                    rfl
                  · by_cases h32 : c.toNat < 32
                    · have henc : jsonEscapeChar c
                          = ['\\', 'u', '0', '0', hexDigit (c.toNat / 16),
                             hexDigit (c.toNat % 16)] := by
                        unfold jsonEscapeChar
                        rw [if_neg hq, if_neg hb, if_neg h8, if_neg h9,
                          if_neg h10, if_neg h12, if_neg h13, if_pos h32]
                      rw [henc]
                      simp only [List.cons_append, List.nil_append]
                      rw [parseJsonString.eq_def]
                      dsimp only
                      rw [if_neg (show ¬('\\' = '"') by decide), if_pos rfl,
                        if_pos rfl,
                        show parseHexDigit '0' = some 0 from by decide,
                        show parseHexDigit (hexDigit (c.toNat / 16))
                            = some (c.toNat / 16) from
                          parseHexDigit_hexDigit ⟨c.toNat / 16, by omega⟩,
                        show parseHexDigit (hexDigit (c.toNat % 16))
                            = some (c.toNat % 16) from
                          parseHexDigit_hexDigit ⟨c.toNat % 16, by omega⟩]
                      dsimp only
                      rw [show 0 * 4096 + 0 * 256 + c.toNat / 16 * 16
                          + c.toNat % 16 = c.toNat by omega]
                      rw [if_pos (Or.inl (by omega : c.toNat < 55296)),
                        ih f rest hf, Char.ofNat_toNat]
                      rfl
                    · have henc : jsonEscapeChar c = [c] := by
                        unfold jsonEscapeChar
                        rw [if_neg hq, if_neg hb, if_neg h8, if_neg h9,
                          if_neg h10, if_neg h12, if_neg h13, if_neg h32]
                      rw [henc]
                      simp only [List.cons_append, List.nil_append]
                      rw [parseJsonString.eq_def]
                      dsimp only
                      rw [if_neg hq, if_neg hb, if_neg h32, ih f rest hf]
                      rfl

/-! ### Value round trip -/

theorem objGet_append_single (a : JSObj) (k k' : String) (v : JVal)
    (h : objGet a k' = none) :
    objGet (a ++ [(k, v)]) k' = if k = k' then some v else none := by
  induction a with
  | nil => simp [objGet]
  | cons hd tl ih =>
    unfold objGet at h ⊢
    by_cases hh : hd.1 = k'
    · simp [hh] at h
    · simp only [List.cons_append, hh, if_false] at h ⊢
      exact ih h

theorem foldl_objSet_append (l : List (String × JVal)) : ∀ acc : JSObj,
    (∀ kv ∈ l, objGet acc kv.1 = none) → nodupKeysB l = true →
    l.foldl (fun a kv => objSet a kv.1 kv.2) acc = acc ++ l := by
  induction l with
  | nil => intro acc _ _; simp
  | cons kv rest ih =>
    obtain ⟨k, v⟩ := kv
    intro acc hdisj hnodup
    unfold nodupKeysB at hnodup
    rw [Bool.and_eq_true] at hnodup
    obtain ⟨hany, hnodup'⟩ := hnodup
    have hkfresh : ∀ kv ∈ rest, kv.1 ≠ k := by
      intro kv hkv hh
      have hmem : rest.any (fun kv => kv.1 == k) = true :=
        List.any_eq_true.mpr ⟨kv, hkv, by simp [hh]⟩
      rw [hmem] at hany
      simp at hany
    rw [List.foldl_cons]
    rw [show objSet acc k v = acc ++ [(k, v)] from
      objSet_of_not_mem acc k v (hdisj (k, v) (by simp))]
    rw [ih (acc ++ [(k, v)]) ?_ hnodup']
    · simp
    · intro kv hkv
      rw [objGet_append_single acc k kv.1 v (hdisj kv (by simp [hkv]))]
      rw [if_neg (fun hh => hkfresh kv hkv hh.symm)]

/-- `JSON.parse` object assembly is the identity on objects with distinct
keys. -/
theorem objFromPairs_nodup (l : List (String × JVal))
    (h : nodupKeysB l = true) : objFromPairs l = l := by
  unfold objFromPairs
  rw [foldl_objSet_append l [] (by simp [objGet]) h]
  simp

/-- A character is a safe head for a serialised value: not whitespace and
not a closing bracket. -/
def headOK (c : Char) : Bool := !jsonWsChar c && !(c == ']')

theorem headOK_of_digit {c : Char} (h1 : 48 ≤ c.toNat) (h2 : c.toNat ≤ 57) :
    headOK c = true := by
  have w1 : (' ').toNat = 32 := by decide
  have w2 : ('\t').toNat = 9 := by decide
  have w3 : ('\n').toNat = 10 := by decide
  have w4 : ('\r').toNat = 13 := by decide
  have w5 : (']').toNat = 93 := by decide
  have hne : ∀ d : Char, c.toNat ≠ d.toNat → (c == d) = false := by
    intro d hd
    simp only [beq_eq_false_iff_ne, ne_eq]
    exact fun hh => hd (by rw [hh])
  unfold headOK jsonWsChar
  rw [hne ' ' (by omega), hne '\t' (by omega), hne '\n' (by omega),
    hne '\r' (by omega), hne ']' (by omega)]
  rfl

theorem natToDec_cons (n : Nat) :
    ∃ c r, natToDec n = c :: r ∧ 48 ≤ c.toNat ∧ c.toNat ≤ 57 := by
  cases hcr : natToDec n with
  | nil => exact absurd hcr (natToDec_ne_nil n)
  | cons c r =>
    have := natToDec_chars n c (by rw [hcr]; simp)
    exact ⟨c, r, rfl, this.1, this.2⟩

/-- Every serialised value starts with a non-whitespace character that is
not `]`. -/
theorem stringify_head_ok (v : JVal) :
    ∃ c r, stringifyJVal v = c :: r ∧ headOK c = true := by
  cases v with
  | jnull => exact ⟨'n', _, rfl, by decide⟩
  | jbool b => cases b with
    | true => exact ⟨'t', _, rfl, by decide⟩
    | false => exact ⟨'f', _, rfl, by decide⟩
  | jnum i =>
    show ∃ c r, intToDec i = c :: r ∧ headOK c = true
    unfold intToDec
    by_cases hi : i < 0
    · rw [if_pos hi]
      exact ⟨'-', _, rfl, by decide⟩
    · rw [if_neg hi]
      obtain ⟨c, r, hcr, h1, h2⟩ := natToDec_cons i.toNat
      exact ⟨c, r, hcr, headOK_of_digit h1 h2⟩
  | jstr s => exact ⟨'"', _, rfl, by decide⟩
  | jarr xs => exact ⟨'[', _, rfl, by decide⟩
  | jobj kvs => exact ⟨lbrace, _, rfl, by decide⟩

mutual

/-- Fuel needed by the parser for a serialised value. -/
def jfuel : JVal → Nat
  | .jnull => 1
  | .jbool _ => 1
  | .jnum _ => 1
  | .jstr s => s.data.length + 2
  | .jarr xs => 1 + jfuelArr xs
  | .jobj kvs => 1 + jfuelObj kvs

def jfuelArr : List JVal → Nat
  | [] => 1
  | v :: rest => 1 + jfuel v + jfuelArr rest

def jfuelObj : List (String × JVal) → Nat
  | [] => 1
  | kv :: rest => 1 + (kv.1.data.length + 1) + jfuel kv.2 + jfuelObj rest

end

theorem jsonEscapeChar_length_ge (c : Char) : 1 ≤ (jsonEscapeChar c).length := by
  unfold jsonEscapeChar
  by_cases h1 : c = '"'
  · simp [h1]
  · rw [if_neg h1]
    by_cases h2 : c = '\\'
    · simp [h2]
    · rw [if_neg h2]
      by_cases h3 : c.toNat = 8
      · simp [h3]
      · rw [if_neg h3]
        by_cases h4 : c.toNat = 9
        · simp [h4]
        · rw [if_neg h4]
          by_cases h5 : c.toNat = 10
          · simp [h5]
          · rw [if_neg h5]
            by_cases h6 : c.toNat = 12
            · simp [h6]
            · rw [if_neg h6]
              by_cases h7 : c.toNat = 13
              · simp [h7]
              · rw [if_neg h7]
                by_cases h8 : c.toNat < 32 <;> simp [h8]

theorem jsonQuote_length (s : String) :
    s.data.length + 2 ≤ (jsonQuote s).length := by
  unfold jsonQuote
  simp only [List.length_cons, List.length_append, List.length_cons,
    List.length_nil]
  have : s.data.length ≤ (s.data.flatMap jsonEscapeChar).length := by
    induction s.data with
    | nil => simp
    | cons c cs ih =>
      rw [List.flatMap_cons, List.length_append, List.length_cons]
      have := jsonEscapeChar_length_ge c
      omega
  omega

mutual

theorem jfuel_le (v : JVal) : jfuel v ≤ 3 * (stringifyJVal v).length := by
  cases v with
  | jnull => decide
  | jbool b => cases b <;> decide
  | jnum i =>
    show jfuel (.jnum i) ≤ 3 * (intToDec i).length
    have h1 : jfuel (.jnum i) = 1 := rfl
    have h2 : intToDec i ≠ [] := by
      unfold intToDec
      by_cases hi : i < 0
      · simp [hi]
      · simp [hi, natToDec_ne_nil]
    rw [h1]
    cases hl : intToDec i with
    | nil => exact absurd hl h2
    | cons c r => simp only [List.length_cons]; omega
  | jstr s =>
    show jfuel (.jstr s) ≤ 3 * (jsonQuote s).length
    have h1 : jfuel (.jstr s) = s.data.length + 2 := rfl
    have := jsonQuote_length s
    omega
  | jarr xs =>
    show 1 + jfuelArr xs ≤ 3 * ('[' :: (stringifyArr xs ++ [']'])).length
    have := jfuelArr_le xs
    simp only [List.length_cons, List.length_append, List.length_cons,
      List.length_nil]
    omega
  | jobj kvs =>
    show 1 + jfuelObj kvs ≤ 3 * (lbrace :: (stringifyObj kvs ++ [rbrace])).length
    have := jfuelObj_le kvs
    simp only [List.length_cons, List.length_append, List.length_cons,
      List.length_nil]
    omega

theorem jfuelArr_le (xs : List JVal) :
    jfuelArr xs ≤ 3 * (stringifyArr xs).length + 2 := by
  match xs with
  | [] => decide
  | [v] =>
    show 1 + jfuel v + jfuelArr [] ≤ 3 * (stringifyJVal v).length + 2
    have := jfuel_le v
    have h1 : jfuelArr ([] : List JVal) = 1 := rfl
    omega
  | v :: w :: rest =>
    show 1 + jfuel v + jfuelArr (w :: rest)
      ≤ 3 * (stringifyJVal v ++ ',' :: stringifyArr (w :: rest)).length + 2
    have h1 := jfuel_le v
    have h2 := jfuelArr_le (w :: rest)
    simp only [List.length_append, List.length_cons]
    omega

theorem jfuelObj_le (kvs : List (String × JVal)) :
    jfuelObj kvs ≤ 3 * (stringifyObj kvs).length + 2 := by
  match kvs with
  | [] => decide
  | [kv] =>
    show 1 + (kv.1.data.length + 1) + jfuel kv.2 + jfuelObj []
      ≤ 3 * (jsonQuote kv.1 ++ ':' :: stringifyJVal kv.2).length + 2
    have h1 := jfuel_le kv.2
    have h2 := jsonQuote_length kv.1
    have h3 : jfuelObj ([] : List (String × JVal)) = 1 := rfl
    simp only [List.length_append, List.length_cons]
    omega
  | kv :: kw :: rest =>
    show 1 + (kv.1.data.length + 1) + jfuel kv.2 + jfuelObj (kw :: rest)
      ≤ 3 * (jsonQuote kv.1 ++ ':' :: stringifyJVal kv.2
          ++ ',' :: stringifyObj (kw :: rest)).length + 2
    have h1 := jfuel_le kv.2
    have h2 := jsonQuote_length kv.1
    have h3 := jfuelObj_le (kw :: rest)
    simp only [List.length_append, List.length_cons]
    omega

end

theorem jfuel_pos (v : JVal) : 1 ≤ jfuel v := by
  cases v <;> unfold jfuel <;> omega

theorem skipJsonWs_not_ws {c : Char} (h : jsonWsChar c = false)
    (l : List Char) : skipJsonWs (c :: l) = c :: l := by
  unfold skipJsonWs
  rw [if_neg (by rw [h]; simp)]

mutual

/-- Parsing a serialised value (followed by a value terminator) recovers
the value. -/
theorem parseJVal_stringify (v : JVal) : ∀ (fuel : Nat) (rest : List Char),
    jvalWF v = true → jfuel v ≤ fuel → restStop rest = true →
    parseJVal fuel (stringifyJVal v ++ rest) = some (v, rest) := by
  intro fuel rest hwf hfuel hrest
  cases fuel with
  | zero => have := jfuel_pos v; omega
  | succ f =>
    cases v with
    | jnull =>
      rw [show stringifyJVal .jnull = ['n', 'u', 'l', 'l'] from rfl]
      simp only [List.cons_append, List.nil_append]
      rw [parseJVal.eq_def]
      dsimp only
      rw [skipJsonWs_not_ws (by decide)]
      dsimp only
      rw [if_pos rfl]
      rfl
    | jbool b =>
      cases b with
      | true =>
        rw [show stringifyJVal (.jbool true) = ['t', 'r', 'u', 'e'] from rfl]
        simp only [List.cons_append, List.nil_append]
        rw [parseJVal.eq_def]
        dsimp only
        rw [skipJsonWs_not_ws (by decide)]
        dsimp only
        rw [if_neg (show ¬('t' = 'n') by decide), if_pos rfl]
        rfl
      | false =>
        rw [show stringifyJVal (.jbool false) = ['f', 'a', 'l', 's', 'e'] from rfl]
        simp only [List.cons_append, List.nil_append]
        rw [parseJVal.eq_def]
        dsimp only
        rw [skipJsonWs_not_ws (by decide)]
        dsimp only
        rw [if_neg (show ¬('f' = 'n') by decide),
          if_neg (show ¬('f' = 't') by decide), if_pos rfl]
        rfl
    | jnum i =>
      rw [show stringifyJVal (.jnum i) = intToDec i from rfl]
      by_cases hi : i < 0
      · rw [show intToDec i = '-' :: natToDec i.natAbs from by
          unfold intToDec; rw [if_pos hi]]
        simp only [List.cons_append]
        rw [parseJVal.eq_def]
        dsimp only
        rw [skipJsonWs_not_ws (by decide)]
        dsimp only
        rw [if_neg (show ¬('-' = 'n') by decide),
          if_neg (show ¬('-' = 't') by decide),
          if_neg (show ¬('-' = 'f') by decide),
          if_neg (show ¬('-' = '"') by decide), if_pos rfl]
        have h := parseNum_intToDec i rest hrest
        rw [if_pos hi] at h
        exact h
      · obtain ⟨c, r, hcr, hd1, hd2⟩ := natToDec_cons i.toNat
        rw [show intToDec i = natToDec i.toNat from by
          unfold intToDec; rw [if_neg hi]]
        rw [hcr]
        simp only [List.cons_append]
        rw [parseJVal.eq_def]
        dsimp only
        have hws : jsonWsChar c = false := by
          have hh := headOK_of_digit hd1 hd2
          unfold headOK at hh
          rw [Bool.and_eq_true] at hh
          simpa using hh.1
        have hne : ∀ d : Char, c.toNat ≠ d.toNat → ¬(c = d) :=
          fun d hd hh => hd (by rw [hh])
        have wn : ('n').toNat = 110 := by decide
        have wt : ('t').toNat = 116 := by decide
        have wf2 : ('f').toNat = 102 := by decide
        have wq : ('"').toNat = 34 := by decide
        have wm : ('-').toNat = 45 := by decide
        rw [skipJsonWs_not_ws hws]
        dsimp only
        rw [if_neg (hne 'n' (by omega)), if_neg (hne 't' (by omega)),
          if_neg (hne 'f' (by omega)), if_neg (hne '"' (by omega)),
          if_neg (hne '-' (by omega)), if_pos ⟨hd1, hd2⟩]
        have h := parseNum_intToDec i rest hrest
        rw [if_neg hi, hcr] at h
        simp only [List.cons_append] at h
        exact h
    | jstr s =>
      rw [show stringifyJVal (.jstr s)
          = '"' :: (s.data.flatMap jsonEscapeChar ++ ['"']) from rfl]
      simp only [List.cons_append, List.append_assoc, List.singleton_append,
        List.nil_append]
      rw [parseJVal.eq_def]
      dsimp only
      rw [skipJsonWs_not_ws (by decide)]
      dsimp only
      rw [if_neg (show ¬('"' = 'n') by decide),
        if_neg (show ¬('"' = 't') by decide),
        if_neg (show ¬('"' = 'f') by decide), if_pos rfl]
      rw [parseJsonString_quote s.data f rest (by
        have hh : jfuel (.jstr s) = s.data.length + 2 := rfl
        omega)]
      rfl
    | jarr xs =>
      rw [show stringifyJVal (.jarr xs) = '[' :: (stringifyArr xs ++ [']'])
          from rfl]
      simp only [List.cons_append, List.append_assoc, List.singleton_append,
        List.nil_append]
      rw [parseJVal.eq_def]
      dsimp only
      rw [skipJsonWs_not_ws (by decide)]
      dsimp only
      rw [if_neg (show ¬('[' = 'n') by decide),
        if_neg (show ¬('[' = 't') by decide),
        if_neg (show ¬('[' = 'f') by decide),
        if_neg (show ¬('[' = '"') by decide),
        if_neg (show ¬('[' = '-') by decide),
        if_neg (show ¬(48 ≤ ('[').toNat ∧ ('[').toNat ≤ 57) by decide),
        if_pos rfl]
      cases xs with
      | nil =>
        rw [show stringifyArr [] = [] from rfl]
        simp only [List.nil_append]
        rw [skipJsonWs_not_ws (by decide)]
        rw [if_pos (show (']' :: rest).head? = some ']' from rfl)]
        rfl
      | cons x xs2 =>
        obtain ⟨c, r, hcr, hok⟩ := stringify_head_ok x
        unfold headOK at hok
        rw [Bool.and_eq_true] at hok
        have hws : jsonWsChar c = false := by simpa using hok.1
        have hbr : ¬(c = ']') := by simpa using hok.2
        obtain ⟨r', hr'⟩ : ∃ r', stringifyArr (x :: xs2) = c :: r' := by
          cases xs2 with
          | nil =>
            exact ⟨r, by
              rw [show stringifyArr [x] = stringifyJVal x from rfl, hcr]⟩
          | cons y ys =>
            refine ⟨r ++ ',' :: stringifyArr (y :: ys), ?_⟩
            rw [show stringifyArr (x :: y :: ys)
                = stringifyJVal x ++ ',' :: stringifyArr (y :: ys) from rfl,
              hcr]
            rfl
        rw [hr']
        simp only [List.cons_append]
        rw [skipJsonWs_not_ws hws]
        rw [if_neg (show ¬((c :: (r' ++ ']' :: rest)).head? = some ']') by
          simp only [List.head?_cons, Option.some.injEq]
          exact hbr)]
        rw [show (c :: (r' ++ ']' :: rest))
            = stringifyArr (x :: xs2) ++ ']' :: rest by rw [hr']; rfl]
        rw [parseArrElems_stringify (x :: xs2) f rest (by simp)
          (by rw [show jvalWF (.jarr (x :: xs2)) = jvalWFList (x :: xs2)
              from rfl] at hwf; exact hwf)
          (by have hh : jfuel (.jarr (x :: xs2)) = 1 + jfuelArr (x :: xs2)
                := rfl
              omega)]
        rfl
    | jobj kvs =>
      rw [show stringifyJVal (.jobj kvs)
          = lbrace :: (stringifyObj kvs ++ [rbrace]) from rfl]
      simp only [List.cons_append, List.append_assoc, List.singleton_append,
        List.nil_append]
      rw [parseJVal.eq_def]
      dsimp only
      rw [skipJsonWs_not_ws (by decide)]
      dsimp only
      rw [if_neg (show ¬(lbrace = 'n') by decide),
        if_neg (show ¬(lbrace = 't') by decide),
        if_neg (show ¬(lbrace = 'f') by decide),
        if_neg (show ¬(lbrace = '"') by decide),
        if_neg (show ¬(lbrace = '-') by decide),
        if_neg (show ¬(48 ≤ lbrace.toNat ∧ lbrace.toNat ≤ 57) by decide),
        if_neg (show ¬(lbrace = '[') by decide),
        if_pos rfl]
      have hwf' : (nodupKeysB kvs && jvalWFObj kvs) = true := by
        rw [show jvalWF (.jobj kvs) = (nodupKeysB kvs && jvalWFObj kvs)
            from rfl] at hwf
        exact hwf
      rw [Bool.and_eq_true] at hwf'
      cases kvs with
      | nil =>
        rw [show stringifyObj [] = [] from rfl]
        simp only [List.nil_append]
        rw [skipJsonWs_not_ws (by decide)]
        rw [if_pos (show (rbrace :: rest).head? = some rbrace from rfl)]
        rfl
      | cons kv kvs2 =>
        obtain ⟨r', hr'⟩ : ∃ r', stringifyObj (kv :: kvs2) = '"' :: r' := by
          cases kvs2 with
          | nil =>
            refine ⟨(kv.1.data.flatMap jsonEscapeChar ++ ['"'])
              ++ ':' :: stringifyJVal kv.2, ?_⟩
            rw [show stringifyObj [kv]
                = jsonQuote kv.1 ++ ':' :: stringifyJVal kv.2 from rfl]
            rfl
          | cons kw kws =>
            refine ⟨(kv.1.data.flatMap jsonEscapeChar ++ ['"'])
              ++ ':' :: stringifyJVal kv.2
              ++ ',' :: stringifyObj (kw :: kws), ?_⟩
            rw [show stringifyObj (kv :: kw :: kws)
                = jsonQuote kv.1 ++ ':' :: stringifyJVal kv.2
                  ++ ',' :: stringifyObj (kw :: kws) from rfl]
            rfl
        rw [hr']
        simp only [List.cons_append]
        rw [skipJsonWs_not_ws (by decide)]
        rw [if_neg (show ¬(('"' :: (r' ++ rbrace :: rest)).head? = some rbrace)
          by
          simp only [List.head?_cons, Option.some.injEq]
          decide)]
        rw [show ('"' :: (r' ++ rbrace :: rest))
            = stringifyObj (kv :: kvs2) ++ rbrace :: rest by rw [hr']; rfl]
        rw [parseObjMembers_stringify (kv :: kvs2) f rest (by simp) hwf'.2
          (by have hh : jfuel (.jobj (kv :: kvs2))
                = 1 + jfuelObj (kv :: kvs2) := rfl
              omega)]
        simp only [Option.map_some']
        rw [objFromPairs_nodup (kv :: kvs2) hwf'.1]

/-- Parsing serialised array elements (up to `]`) recovers the list. -/
theorem parseArrElems_stringify (xs : List JVal) :
    ∀ (fuel : Nat) (rest : List Char),
    xs ≠ [] → jvalWFList xs = true → jfuelArr xs ≤ fuel →
    parseArrElems fuel (stringifyArr xs ++ (']' :: rest)) = some (xs, rest) := by
  match xs with
  | [] => intro fuel rest hne _ _; exact absurd rfl hne
  | [v] =>
    intro fuel rest _ hwf hfuel
    have heq : jfuelArr [v] = 1 + jfuel v + 1 := rfl
    have hwf' : jvalWF v = true := by
      rw [show jvalWFList [v] = (jvalWF v && jvalWFList []) from rfl,
        Bool.and_eq_true] at hwf
      exact hwf.1
    cases fuel with
    | zero => omega
    | succ f =>
      rw [show stringifyArr [v] = stringifyJVal v from rfl]
      rw [parseArrElems.eq_def]
      dsimp only
      rw [parseJVal_stringify v f (']' :: rest) hwf' (by omega) rfl]
      dsimp only
      rw [skipJsonWs_not_ws (by decide)]
      dsimp only
      rw [if_neg (show ¬(']' = ',') by decide), if_pos rfl]
  | v :: w :: ws =>
    intro fuel rest _ hwf hfuel
    have heq : jfuelArr (v :: w :: ws)
        = 1 + jfuel v + jfuelArr (w :: ws) := rfl
    have heq2 : jfuelArr (w :: ws) = 1 + jfuel w + jfuelArr ws := rfl
    rw [show jvalWFList (v :: w :: ws)
        = (jvalWF v && jvalWFList (w :: ws)) from rfl,
      Bool.and_eq_true] at hwf
    cases fuel with
    | zero => omega
    | succ f =>
      rw [show stringifyArr (v :: w :: ws)
          = stringifyJVal v ++ ',' :: stringifyArr (w :: ws) from rfl]
      simp only [List.append_assoc, List.cons_append]
      rw [parseArrElems.eq_def]
      dsimp only
      rw [parseJVal_stringify v f
        (',' :: (stringifyArr (w :: ws) ++ ']' :: rest)) hwf.1 (by omega) rfl]
      dsimp only
      rw [skipJsonWs_not_ws (by decide)]
      dsimp only
      rw [if_pos rfl]
      rw [parseArrElems_stringify (w :: ws) f rest (by simp) hwf.2 (by omega)]
      rfl

/-- Parsing serialised object members (up to the closing brace) recovers
the member list. -/
theorem parseObjMembers_stringify (kvs : List (String × JVal)) :
    ∀ (fuel : Nat) (rest : List Char),
    kvs ≠ [] → jvalWFObj kvs = true → jfuelObj kvs ≤ fuel →
    parseObjMembers fuel (stringifyObj kvs ++ (rbrace :: rest))
      = some (kvs, rest) := by
  match kvs with
  | [] => intro fuel rest hne _ _; exact absurd rfl hne
  | [kv] =>
    intro fuel rest _ hwf hfuel
    have heq : jfuelObj [kv]
        = 1 + (kv.1.data.length + 1) + jfuel kv.2 + 1 := rfl
    have hwf' : jvalWF kv.2 = true := by
      rw [show jvalWFObj [kv] = (jvalWF kv.2 && jvalWFObj []) from rfl,
        Bool.and_eq_true] at hwf
      exact hwf.1
    cases fuel with
    | zero => omega
    | succ f =>
      rw [show stringifyObj [kv]
          = jsonQuote kv.1 ++ ':' :: stringifyJVal kv.2 from rfl]
      rw [show jsonQuote kv.1
          = '"' :: (kv.1.data.flatMap jsonEscapeChar ++ ['"']) from rfl]
      simp only [List.append_assoc, List.cons_append, List.singleton_append,
        List.nil_append]
      rw [parseObjMembers.eq_def]
      dsimp only
      rw [skipJsonWs_not_ws (by decide)]
      dsimp only
      rw [if_pos rfl]
      rw [parseJsonString_quote kv.1.data f _ (by omega)]
      dsimp only
      rw [skipJsonWs_not_ws (by decide)]
      dsimp only
      rw [if_pos rfl]
      rw [parseJVal_stringify kv.2 f (rbrace :: rest) hwf' (by omega) rfl]
      dsimp only
      rw [skipJsonWs_not_ws (by decide)]
      dsimp only
      rw [if_neg (show ¬(rbrace = ',') by decide), if_pos rfl]
  | kv :: kw :: kws =>
    intro fuel rest _ hwf hfuel
    have heq : jfuelObj (kv :: kw :: kws)
        = 1 + (kv.1.data.length + 1) + jfuel kv.2 + jfuelObj (kw :: kws)
        := rfl
    have heq2 : jfuelObj (kw :: kws)
        = 1 + (kw.1.data.length + 1) + jfuel kw.2 + jfuelObj kws := rfl
    rw [show jvalWFObj (kv :: kw :: kws)
        = (jvalWF kv.2 && jvalWFObj (kw :: kws)) from rfl,
      Bool.and_eq_true] at hwf
    cases fuel with
    | zero => omega
    | succ f =>
      rw [show stringifyObj (kv :: kw :: kws)
          = jsonQuote kv.1 ++ ':' :: stringifyJVal kv.2
            ++ ',' :: stringifyObj (kw :: kws) from rfl]
      rw [show jsonQuote kv.1
          = '"' :: (kv.1.data.flatMap jsonEscapeChar ++ ['"']) from rfl]
      simp only [List.append_assoc, List.cons_append, List.singleton_append,
        List.nil_append]
      rw [parseObjMembers.eq_def]
      dsimp only
      rw [skipJsonWs_not_ws (by decide)]
      dsimp only
      rw [if_pos rfl]
      rw [parseJsonString_quote kv.1.data f _ (by omega)]
      dsimp only
      rw [skipJsonWs_not_ws (by decide)]
      dsimp only
      rw [if_pos rfl]
      rw [parseJVal_stringify kv.2 f
        (',' :: (stringifyObj (kw :: kws) ++ rbrace :: rest)) hwf.1
        (by omega) rfl]
      dsimp only
      rw [skipJsonWs_not_ws (by decide)]
      dsimp only
      rw [if_pos rfl]
      rw [parseObjMembers_stringify (kw :: kws) f rest (by simp) hwf.2
        (by omega)]
      rfl

end

/-- `JSON.parse` inverts `JSON.stringify` on well-formed values. -/
theorem jsonParse_jsonStringify (v : JVal) (hwf : jvalWF v = true) :
    jsonParse (jsonStringify v) = some v := by
  unfold jsonParse jsonStringify
  have hdata : (String.mk (stringifyJVal v)).data = stringifyJVal v := rfl
  rw [hdata]
  have h := parseJVal_stringify v (3 * (stringifyJVal v).length + 3) [] hwf
    (by have := jfuel_le v; omega) rfl
  rw [List.append_nil] at h
  rw [h]
  rfl

/-! ## Cipher layer (`crypto-utils.js`)

`aes-256-ctr` is a stream cipher: ciphertext is plaintext XOR a keystream
determined by the key and IV. The keystream itself is external to the
repository, so it is a parameter `ks` of the model; `encrypt`/`decrypt`
perform exactly the byte-wise XOR of counter mode, wrapped in the
URL-safe-base64 transcoding that `crypto-utils.js` performs. -/

/-- A CTR keystream: key bytes, IV bytes, byte index ↦ keystream byte. -/
abbrev Keystream := List Nat → List Nat → Nat → Nat

/-- XOR a byte list against a keystream starting at index `i`. -/
def xorStream (ksb : Nat → Nat) : Nat → List Nat → List Nat
  | _, [] => []
  | i, b :: rest => (b ^^^ ksb i % 256) :: xorStream ksb (i + 1) rest

theorem xorStream_xorStream (ksb : Nat → Nat) (bs : List Nat) : ∀ i,
    xorStream ksb i (xorStream ksb i bs) = bs := by
  induction bs with
  | nil => intro i; rfl
  | cons b rest ih =>
    intro i
    rw [show xorStream ksb i (b :: rest)
        = (b ^^^ ksb i % 256) :: xorStream ksb (i + 1) rest from rfl]
    rw [show xorStream ksb i ((b ^^^ ksb i % 256) :: xorStream ksb (i + 1) rest)
        = ((b ^^^ ksb i % 256) ^^^ ksb i % 256)
            :: xorStream ksb (i + 1) (xorStream ksb (i + 1) rest) from rfl]
    rw [Nat.xor_cancel_right, ih (i + 1)]

theorem xorStream_lt (ksb : Nat → Nat) (bs : List Nat)
    (h : ∀ b ∈ bs, b < 256) : ∀ i, ∀ b ∈ xorStream ksb i bs, b < 256 := by
  induction bs with
  | nil => intro i b hb; simp [xorStream] at hb
  | cons b rest ih =>
    intro i x hx
    unfold xorStream at hx
    rcases List.mem_cons.mp hx with rfl | hx
    · exact Nat.xor_lt_two_pow (n := 8) (h b (by simp))
        (Nat.mod_lt _ (by omega))
    · exact ih (fun y hy => h y (by simp [hy])) (i + 1) x hx

/-- `getSaltProperties(salt)`: URL-safe-base64 decode to UTF-8 text, then
`JSON.parse`; `none` models the thrown parse error. -/
def getSaltProperties (salt : String) : Option JVal :=
  jsonParse (fromURLSafeBase64Utf8 salt)

/-- Pure property read used after `getSaltProperties` (the decoded JSON is
not `null` when this is used; reads on other non-objects yield
`undefined`). -/
def jGetProp : JVal → String → Option JVal
  | .jobj kvs, k => objGet kvs k
  | _, _ => none

/-- `encrypt(value, salt)`: parse the secret bundle, decode key and IV,
XOR the UTF-8 plaintext with the CTR keystream, URL-safe-base64 encode.
`Except` carries the message of a thrown error (`createCipheriv` rejects
wrong key/IV lengths; a malformed bundle fails JSON parsing). -/
def encrypt (ks : Keystream) (value : String) (salt : String) :
    Except String String :=
  match getSaltProperties salt with
  | none => .error "salt parse failure"
  | some props =>
    match jGetProp props "secretKey", jGetProp props "iv" with
    | some (.jstr skText), some (.jstr ivText) =>
      let secretKey := fromURLSafeBase64Bytes skText
      let iv := fromURLSafeBase64Bytes ivText
      if secretKey.length ≠ 32 then .error "Invalid key length"
      else if iv.length ≠ 16 then .error "Invalid initialization vector"
      else .ok (toURLSafeBase64 (xorStream (ks secretKey iv) 0 (utf8Encode value)))
    | _, _ => .error "invalid secret bundle"

/-- `decrypt(value, salt)`: the inverse pipeline; CTR decryption is the
same XOR, and the decrypted bytes are decoded as UTF-8 text. -/
def decrypt (ks : Keystream) (value : String) (salt : String) :
    Except String String :=
  match getSaltProperties salt with
  | none => .error "salt parse failure"
  | some props =>
    match jGetProp props "secretKey", jGetProp props "iv" with
    | some (.jstr skText), some (.jstr ivText) =>
      let secretKey := fromURLSafeBase64Bytes skText
      let iv := fromURLSafeBase64Bytes ivText
      if secretKey.length ≠ 32 then .error "Invalid key length"
      else if iv.length ≠ 16 then .error "Invalid initialization vector"
      else .ok (utf8DecodeLossy
        (xorStream (ks secretKey iv) 0 (fromURLSafeBase64Bytes value)))
    | _, _ => .error "invalid secret bundle"

/-- Decryption inverts encryption under the same secret bundle. -/
theorem decrypt_encrypt (ks : Keystream) (value : String) (salt : String)
    (ct : String) (h : encrypt ks value salt = .ok ct) :
    decrypt ks ct salt = .ok value := by
  unfold encrypt at h
  unfold decrypt
  split at h
  · exact absurd h (by simp)
  · split at h
    · dsimp only at h ⊢
      split at h
      · exact absurd h (by simp)
      · rename_i hlk
        split at h
        · exact absurd h (by simp)
        · rename_i hli
          rw [if_neg hlk, if_neg hli]
          simp only [Except.ok.injEq] at h
          rw [← h]
          rw [fromURLSafeBase64Bytes_toURLSafeBase64 _
            (xorStream_lt _ _ (utf8Encode_lt value) 0)]
          rw [xorStream_xorStream]
          rw [utf8DecodeLossy_encode]
    · exact absurd h (by simp)

/-! ## Token layer (`index.js`)

Thrown values are modelled by `Except JSErr`: a `TWTError` carries its
`code` and message (`createError`); an uncaught `TypeError` (strict-mode
member access on `null`, `.replace` on a non-string) is a separate
constructor, since it escapes `validateEncodedSecret` unclassified. -/

inductive JSErr where
  | twt (code : String) (msg : String)
  | typeError (msg : String)
  deriving DecidableEq, Repr

/-- The shared `ESECRET` message of `validateEncodedSecret`. -/
def secretMsgMain : String :=
  "Bad \"encodedSecret\" provided: \"encodedSecret\" must be a URL-safe base64 encoded JSON object containing valid \"secretKey\" and \"iv\" properties"

def secretMsgKey : String :=
  "Bad \"encodedSecret\" provided: \"encodedSecret.secretKey\" must be a Buffer with a length of 32 bytes"

def secretMsgIv : String :=
  "Bad \"encodedSecret\" provided: \"encodedSecret.iv\" must be a Buffer with a length of 16 bytes"

/-- Is the JSON value `null`? -/
def isJNull : JVal → Bool
  | .jnull => true
  | _ => false

/-- Truthiness of a property read (`undefined` is falsy). -/
def optTruthy : Option JVal → Bool
  | none => false
  | some v => jtruthy v

/-- `validateEncodedSecret(encodedSecret)` from `index.js`. The
`encodedSecretResult.secretKey` accesses and the `fromURLSafeBase64`
calls sit outside the `try`, so a `null` JSON body or a truthy non-string
`secretKey`/`iv` raises an uncaught `TypeError` instead of a `TWTError`. -/
def validateEncodedSecret (es : JSVal) : Except JSErr Unit :=
  if es.truthy = false then .error (.twt "ESECRET" secretMsgMain)
  else
    match es with
    | .vstr s =>
      match getSaltProperties s with
      | none => .error (.twt "ESECRET" secretMsgMain)
      | some props =>
        if isJNull props then
          .error (.typeError "Cannot read properties of null (reading 'secretKey')")
        else
          let sk := jGetProp props "secretKey"
          let iv := jGetProp props "iv"
          if optTruthy sk = false || optTruthy iv = false then
            .error (.twt "ESECRET" secretMsgMain)
          else
            match sk with
            | some (.jstr skText) =>
              if (fromURLSafeBase64Bytes skText).length ≠ 32 then
                .error (.twt "ESECRET" secretMsgKey)
              else
                match iv with
                | some (.jstr ivText) =>
                  if (fromURLSafeBase64Bytes ivText).length ≠ 16 then
                    .error (.twt "ESECRET" secretMsgIv)
                  else .ok ()
                | _ => .error (.typeError "encodedSecretResult.iv.replace is not a function")
            | _ => .error (.typeError "encodedSecretResult.secretKey.replace is not a function")
    | _ => .error (.twt "ESECRET" secretMsgMain)

/-- The generation options object (`validAt`, `expiresAt`,
`encodedSecret`), each field an arbitrary JavaScript value. -/
structure GenOptions where
  validAt : JSVal
  expiresAt : JSVal
  encodedSecret : JSVal
  deriving DecidableEq, Repr

/-- `validateOptions(now, options)` from `index.js`, checks in source
order. -/
def validateOptions (now : Int) (o : GenOptions) : Except JSErr Unit :=
  match o.validAt with
  | .vnum va =>
    if va.ltB (.fin now) then
      .error (.twt "EVALIDAT" "\"validAt\" must be no sooner than \"now\" in seconds since the UNIX epoch")
    else if va.gtB (.fin (now + 31557600)) then
      .error (.twt "EVALIDAT" "\"validAt\" can not be more than a year into the future")
    else
      match o.expiresAt with
      | .vnum ea =>
        if ea.ltB (.fin now) then
          .error (.twt "EEXPIRESAT" "\"expiresAt\" must be no sooner than \"now\" in seconds since the UNIX epoch")
        else if ea.ltB va then
          .error (.twt "EEXPIRESAT" "\"expiresAt\" must not be before \"validAt\"")
        else if (ea.sub va).gtB (.fin 31557600) then
          .error (.twt "EEXPIRESAT" "\"expiresAt\" can not be more than a year into the future from \"validAt\"")
        else validateEncodedSecret o.encodedSecret
      | _ =>
        .error (.twt "EEXPIRESAT" "\"expiresAt\" must be a number (of seconds since the UNIX epoch)")
  | _ =>
    .error (.twt "EVALIDAT" "\"validAt\" must be a number (of seconds since the UNIX epoch)")

/-- The `validAt`/`expiresAt` defaulting of `generateTWT` (falsy fields
default to `now` and `validAt + 2592000`), applied to a copy of the
caller's options. -/
def postDefault (now : Int) (optsArg : Option GenOptions) : GenOptions :=
  let o := optsArg.getD ⟨.undef, .undef, .undef⟩
  let o := if o.validAt.truthy then o else { o with validAt := .vnum (.fin now) }
  if o.expiresAt.truthy then o
  else { o with expiresAt := o.validAt.addInt 2592000 }

/-- The integer of a finite JavaScript number field (used after
validation has established the field is a finite number). -/
def getFinNum : JSVal → Int
  | .vnum (.fin n) => n
  | _ => 0

/-- `generateTWT(props, _options)` from `index.js`. `JSON.stringify` of
an acyclic claims object cannot throw, so the `ESERIALIZE` branch is
unreachable in the model; encryption failures become `EENCRYPTION`. -/
def generateTWT (ks : Keystream) (now : Int) (props : Option JSObj)
    (optsArg : Option GenOptions) : Except JSErr String :=
  let options := postDefault now optsArg
  match validateOptions now options with
  | .error e => .error e
  | .ok () =>
    let claims := objSet (objSet (props.getD []) "$"
      (.jstr (toBase36 (getFinNum options.validAt)))) "$$"
      (.jstr (toBase36 (getFinNum options.expiresAt)))
    let serialized := jsonStringify (.jobj claims)
    match options.encodedSecret with
    | .vstr s =>
      match encrypt ks serialized s with
      | .ok token => .ok token
      | .error m => .error (.twt "EENCRYPTION" ("Encryption error: " ++ m))
    | _ => .error (.twt "EENCRYPTION" "Encryption error: salt.replace is not a function")

/-- The verification options object. -/
structure VerifyOptions where
  encodedSecret : JSVal
  keyMap : Option (List (String × String))
  allowableClockDriftSeconds : JSVal
  deriving DecidableEq, Repr

/-- The second argument of `verifyTWT`: a string (taken as the
`encodedSecret`), an options object, or nothing. -/
inductive VerifyArg where
  | str (s : String)
  | obj (o : VerifyOptions)
  | undef
  deriving DecidableEq, Repr

/-- `(typeof _options === 'string') ? { encodedSecret: _options } : (_options || {})`. -/
def resolveVerifyOptions : VerifyArg → VerifyOptions
  | .str s => ⟨.vstr s, none, .undef⟩
  | .obj o => o
  | .undef => ⟨.undef, none, .undef⟩

/-- Clock-drift resolution: a finite number, else the default 120. -/
def resolveDrift : JSVal → Int
  | .vnum (.fin n) => n
  | _ => 120

/-- `(keyMap && keyMap[key]) || key`. -/
def keyMapLookup (keyMap : Option (List (String × String))) (k : String) : String :=
  match keyMap with
  | none => k
  | some m =>
    match m.find? (fun kv => kv.1 == k) with
    | some kv => if kv.2 = "" then k else kv.2
    | none => k

/-- The output remap loop of `verifyTWT` (lines 156–172 of `index.js`). -/
def remapClaims (keyMap : Option (List (String × String))) (claims : JSObj) : JSObj :=
  claims.foldl (fun acc kv =>
    let mappedKey := keyMapLookup keyMap kv.1
    let mappedKey := if kv.1 = "$" then "validAt" else mappedKey
    let mappedKey := if kv.1 = "$$" then "expiresAt" else mappedKey
    objSet acc mappedKey kv.2) []

/-- The parsed JSON value as a JavaScript object open to property
assignment: objects as-is, arrays with index keys; assigning a property
on a primitive or `null` in strict mode throws (caught as `EPARSE`). -/
def claimsObjOf : JVal → Option JSObj
  | .jobj kvs => some kvs
  | .jarr xs => some (xs.mapIdx (fun i v => (toString i, v)))
  | _ => none

mutual

/-- JavaScript `ToString` of a JSON value. -/
def jvalToString : JVal → String
  | .jnull => "null"
  | .jbool true => "true"
  | .jbool false => "false"
  | .jnum n => toString n
  | .jstr s => s
  | .jarr xs => arrJoin xs
  | .jobj _ => "[object Object]"

/-- `Array.prototype.toString` (join with `,`, `null` elements empty). -/
def arrJoin : List JVal → String
  | [] => ""
  | [v] => match v with | .jnull => "" | v => jvalToString v
  | v :: rest =>
    (match v with | .jnull => "" | v => jvalToString v) ++ "," ++ arrJoin rest

end

/-- `ToString` of a property read (`undefined` reads back `"undefined"`). -/
def jsOptToString : Option JVal → String
  | none => "undefined"
  | some v => jvalToString v

/-- `verifyTWT(token, _options)` from `index.js`. -/
def verifyTWT (ks : Keystream) (now : Int) (token : String) (arg : VerifyArg) :
    Except JSErr JSObj :=
  let options := resolveVerifyOptions arg
  let keyMap := options.keyMap
  let drift := resolveDrift options.allowableClockDriftSeconds
  match validateEncodedSecret options.encodedSecret with
  | .error e => .error e
  | .ok () =>
    let decryptedE := match options.encodedSecret with
      | .vstr s => decrypt ks token s
      | _ => .error "salt.replace is not a function"
    match decryptedE with
    | .error m => .error (.twt "EENCRYPTION" ("Decryption error: " ++ m))
    | .ok decrypted =>
      match jsonParse decrypted with
      | none => .error (.twt "EPARSE" "Parsing error: invalid JSON")
      | some parsed =>
        match claimsObjOf parsed with
        | none => .error (.twt "EPARSE" "Parsing error: cannot assign on primitive")
        | some claims0 =>
          match jsParseInt36 (jsOptToString (objGet claims0 "$")) with
          | .fin a =>
            if a ≤ 0 then .error (.twt "ETIME" "Invalid token")
            else
              match jsParseInt36 (jsOptToString (objGet claims0 "$$")) with
              | .fin b =>
                if b ≤ 0 then .error (.twt "ETIME" "Invalid token")
                else if b < a then
                  .error (.twt "ETIME" "Token \"validAt\" is greater than \"expiresAt\"")
                else if now - a < 0 ∧ drift < |now - a| then
                  .error (.twt "ETIME" "Token is not yet valid")
                else if b - now < 0 ∧ drift < |b - now| then
                  .error (.twt "ETIME" "Token has expired")
                else
                  let claims1 := objSet (objSet claims0 "$" (.jnum a)) "$$" (.jnum b)
                  let claims2 := objSet claims1 "expiresIn" (.jnum (b - a))
                  .ok (remapClaims keyMap claims2)
              | _ => .error (.twt "ETIME" "Invalid token")
          | _ => .error (.twt "ETIME" "Invalid token")

/-! ## Facts about the token layer -/

theorem objGet_eq_none_iff (l : JSObj) (k : String) :
    objGet l k = none ↔ ∀ kv ∈ l, kv.1 ≠ k := by
  induction l with
  | nil => simp [objGet]
  | cons hd tl ih =>
    unfold objGet
    by_cases hh : hd.1 = k
    · simp [hh]
    · simp only [hh, if_false, ih, List.mem_cons]
      constructor
      · rintro h kv (rfl | hkv)
        · exact hh
        · exact h kv hkv
      · intro h kv hkv
        exact h kv (Or.inr hkv)

theorem objGet_append (l l2 : JSObj) (k : String) :
    objGet (l ++ l2) k
      = match objGet l k with
        | some w => some w
        | none => objGet l2 k := by
  induction l with
  | nil => simp [objGet]
  | cons hd tl ih =>
    rw [List.cons_append]
    by_cases hh : hd.1 = k
    · rw [show objGet (hd :: (tl ++ l2)) k = some hd.2 from by
        rw [objGet, if_pos hh]]
      rw [show objGet (hd :: tl) k = some hd.2 from by
        rw [objGet, if_pos hh]]
    · rw [show objGet (hd :: (tl ++ l2)) k = objGet (tl ++ l2) k from by
        rw [objGet, if_neg hh]]
      rw [show objGet (hd :: tl) k = objGet tl k from by
        rw [objGet, if_neg hh]]
      exact ih

theorem nodupKeysB_append_single (l : JSObj) (k : String) (v : JVal)
    (h : nodupKeysB l = true) (hget : objGet l k = none) :
    nodupKeysB (l ++ [(k, v)]) = true := by
  induction l with
  | nil =>
    simp only [List.nil_append]
    rfl
  | cons hd tl ih =>
    obtain ⟨k0, v0⟩ := hd
    have hEq : nodupKeysB ((k0, v0) :: tl)
        = ((!tl.any (fun kv => kv.1 == k0)) && nodupKeysB tl) := rfl
    rw [hEq, Bool.and_eq_true] at h
    unfold objGet at hget
    by_cases hh : k0 = k
    · simp [hh] at hget
    · simp only [hh, if_false] at hget
      rw [List.cons_append]
      have hEq2 : nodupKeysB ((k0, v0) :: (tl ++ [(k, v)]))
          = ((!(tl ++ [(k, v)]).any (fun kv => kv.1 == k0))
              && nodupKeysB (tl ++ [(k, v)])) := rfl
      rw [hEq2, Bool.and_eq_true]
      refine ⟨?_, ih h.2 hget⟩
      have h1 : tl.any (fun kv => kv.1 == k0) = false := by simpa using h.1
      simp only [List.any_append, List.any_cons, List.any_nil, Bool.or_false,
        Bool.not_eq_true', Bool.or_eq_false_iff]
      refine ⟨h1, ?_⟩
      simp only [beq_eq_false_iff_ne, ne_eq]
      exact fun hcontra => hh hcontra.symm

theorem jvalWFObj_append_single (l : JSObj) (k : String) (v : JVal)
    (h : jvalWFObj l = true) (hv : jvalWF v = true) :
    jvalWFObj (l ++ [(k, v)]) = true := by
  induction l with
  | nil =>
    simp only [List.nil_append]
    have h2 : jvalWFObj [(k, v)] = (jvalWF v && jvalWFObj []) := rfl
    rw [h2, Bool.and_eq_true]
    exact ⟨hv, rfl⟩
  | cons hd tl ih =>
    have h1 : jvalWFObj (hd :: tl) = (jvalWF hd.2 && jvalWFObj tl) := rfl
    rw [h1, Bool.and_eq_true] at h
    rw [List.cons_append]
    have h2 : jvalWFObj (hd :: (tl ++ [(k, v)]))
        = (jvalWF hd.2 && jvalWFObj (tl ++ [(k, v)])) := rfl
    rw [h2, Bool.and_eq_true]
    exact ⟨h.1, ih h.2⟩

/-- The output-key rule of the verify remap loop, as the specification
describes it (amended): `$` and `$$` always become `validAt` and
`expiresAt`; any other key becomes its `keyMap` image when that image is
truthy (a non-empty string), else itself. -/
def outputKeyRule (keyMap : Option (List (String × String))) (k : String) : String :=
  if k = "$" then "validAt"
  else if k = "$$" then "expiresAt"
  else keyMapLookup keyMap k

/-- The remap loop builds the object whose entries are the claims entries
renamed by `outputKeyRule` (later assignments overwriting earlier ones). -/
theorem remapClaims_eq_objFromPairs (keyMap : Option (List (String × String)))
    (claims : JSObj) :
    remapClaims keyMap claims
      = objFromPairs (claims.map (fun kv => (outputKeyRule keyMap kv.1, kv.2))) := by
  unfold remapClaims objFromPairs
  rw [List.foldl_map]
  congr 1
  funext acc kv
  dsimp only
  unfold outputKeyRule
  by_cases h1 : kv.1 = "$"
  · simp [h1]
  · by_cases h2 : kv.1 = "$$"
    · simp [h1, h2]
    · simp [h1, h2]

/-- A validated `encodedSecret` is a string whose bundle decodes to a
JSON object with string `secretKey`/`iv` of byte lengths 32 and 16. -/
theorem validateEncodedSecret_ok_shape (es : JSVal)
    (h : validateEncodedSecret es = .ok ()) :
    ∃ s props skText ivText, es = .vstr s ∧ getSaltProperties s = some props ∧
      jGetProp props "secretKey" = some (.jstr skText) ∧
      jGetProp props "iv" = some (.jstr ivText) ∧
      (fromURLSafeBase64Bytes skText).length = 32 ∧
      (fromURLSafeBase64Bytes ivText).length = 16 := by
  unfold validateEncodedSecret at h
  split at h
  · exact absurd h (by simp)
  · split at h
    · rename_i s htr
      split at h
      · exact absurd h (by simp)
      · rename_i props hsp
        split at h
        · exact absurd h (by simp)
        · dsimp only at h
          split at h
          · exact absurd h (by simp)
          · split at h
            · rename_i skText hsk
              split at h
              · exact absurd h (by simp)
              · rename_i hlk
                split at h
                · rename_i ivText hiv
                  split at h
                  · exact absurd h (by simp)
                  · rename_i hli
                    exact ⟨s, props, skText, ivText, rfl, hsp, hsk, hiv,
                      by omega, by omega⟩
                · exact absurd h (by simp)
            · exact absurd h (by simp)
    · exact absurd h (by simp)

/-- With a validated secret, encryption succeeds. -/
theorem encrypt_ok_of_validated (ks : Keystream) (value s : String)
    (h : validateEncodedSecret (.vstr s) = .ok ()) :
    ∃ ct, encrypt ks value s = .ok ct := by
  obtain ⟨s', props, skText, ivText, hs, hsp, hsk, hiv, hlk, hli⟩ :=
    validateEncodedSecret_ok_shape _ h
  have hss : s' = s := by
    have := hs
    simp only [JSVal.vstr.injEq] at this
    exact this.symm
  subst hss
  unfold encrypt
  rw [hsp]
  dsimp only
  rw [hsk, hiv]
  dsimp only
  rw [if_neg (by omega), if_neg (by omega)]
  exact ⟨_, rfl⟩

theorem objSet_append_of_not_mem (l l2 : JSObj) (k : String) (v : JVal)
    (h : objGet l k = none) : objSet (l ++ l2) k v = l ++ objSet l2 k v := by
  induction l with
  | nil => simp
  | cons hd tl ih =>
    unfold objGet at h
    by_cases hh : hd.1 = k
    · simp [hh] at h
    · simp only [hh, if_false] at h
      rw [List.cons_append,
        show objSet (hd :: (tl ++ l2)) k v = hd :: objSet (tl ++ l2) k v from by
          rw [objSet, if_neg hh],
        ih h, List.cons_append]

/-- C1 (amended): round trip under default time options (`validAt`,
`expiresAt`, `expiresIn` unset): for every claims object free of the
reserved keys and every validated secret, generation at clock `t`
followed by verification at clock `t` succeeds and returns the caller
claims extended with `validAt = t`, `expiresAt = t + 2592000` and
`expiresIn = 2592000`, so the non-time fields equal the input and
`expiresAt - validAt = expiresIn = 2592000`. The original claim, over
every valid options object, fails: a `validAt` in the future (allowed at
generation) makes immediate verification fail with a time error. -/
theorem roundTrip_default_options (ks : Keystream) (t : Int) (C : JSObj)
    (s : String)
    (ht : 0 < t)
    (hwf : jvalWF (.jobj C) = true)
    (h1 : objGet C "$" = none) (h2 : objGet C "$$" = none)
    (h3 : objGet C "validAt" = none) (h4 : objGet C "expiresAt" = none)
    (h5 : objGet C "expiresIn" = none)
    (hsec : validateEncodedSecret (.vstr s) = .ok ()) :
    ∃ tok,
      generateTWT ks t (some C) (some ⟨.undef, .undef, .vstr s⟩) = .ok tok
      ∧ verifyTWT ks t tok (.obj ⟨.vstr s, none, .undef⟩)
          = .ok (C ++ [("validAt", .jnum t), ("expiresAt", .jnum (t + 2592000)),
                       ("expiresIn", .jnum 2592000)]) := by
  -- the claims object built by generateTWT
  have hclaims : objSet (objSet C "$" (.jstr (toBase36 t))) "$$"
        (.jstr (toBase36 (t + 2592000)))
      = C ++ [("$", JVal.jstr (toBase36 t)),
              ("$$", JVal.jstr (toBase36 (t + 2592000)))] := by
    rw [objSet_of_not_mem C "$" _ h1]
    rw [objSet_append_of_not_mem C _ "$$" _ h2]
    rfl
  set jv := JVal.jstr (toBase36 t) with hjv
  set jw := JVal.jstr (toBase36 (t + 2592000)) with hjw
  set claims := C ++ [("$", jv), ("$$", jw)] with hclaimsDef
  -- well-formedness of the claims object
  have hwfC : (nodupKeysB C && jvalWFObj C) = true := hwf
  rw [Bool.and_eq_true] at hwfC
  have hget2 : objGet (C ++ [("$", jv)]) "$$" = none := by
    rw [objGet_append, h2]
    rfl
  have hwfclaims : jvalWF (.jobj claims) = true := by
    show (nodupKeysB claims && jvalWFObj claims) = true
    rw [Bool.and_eq_true]
    constructor
    · rw [hclaimsDef, show C ++ [("$", jv), ("$$", jw)]
          = (C ++ [("$", jv)]) ++ [("$$", jw)] by simp]
      exact nodupKeysB_append_single _ _ _
        (nodupKeysB_append_single _ _ _ hwfC.1 h1) hget2
    · rw [hclaimsDef, show C ++ [("$", jv), ("$$", jw)]
          = (C ++ [("$", jv)]) ++ [("$$", jw)] by simp]
      exact jvalWFObj_append_single _ _ _
        (jvalWFObj_append_single _ _ _ hwfC.2 rfl) rfl
  -- generation succeeds
  obtain ⟨tok, htok⟩ :=
    encrypt_ok_of_validated ks (jsonStringify (.jobj claims)) s hsec
  have hgen : generateTWT ks t (some C) (some ⟨.undef, .undef, .vstr s⟩)
      = .ok tok := by
    unfold generateTWT
    rw [show postDefault t (some ⟨.undef, .undef, .vstr s⟩)
        = ⟨.vnum (.fin t), .vnum (.fin (t + 2592000)), .vstr s⟩ from rfl]
    dsimp only
    rw [show validateOptions t
          ⟨.vnum (.fin t), .vnum (.fin (t + 2592000)), .vstr s⟩
        = validateEncodedSecret (.vstr s) from by
      unfold validateOptions
      dsimp only
      rw [if_neg (by simp [JSNum.ltB]),
        if_neg (by simp only [JSNum.gtB, JSNum.ltB, decide_eq_true_eq]; omega),
        if_neg (by simp only [JSNum.ltB, decide_eq_true_eq]; omega),
        if_neg (by simp only [JSNum.ltB, decide_eq_true_eq]; omega),
        if_neg (by simp only [JSNum.sub, JSNum.gtB, JSNum.ltB,
          decide_eq_true_eq]; omega)]]
    rw [hsec]
    dsimp only
    rw [show getFinNum (JSVal.vnum (.fin t)) = t from rfl,
      show getFinNum (JSVal.vnum (.fin (t + 2592000))) = t + 2592000 from rfl,
      show ((some C).getD [] : JSObj) = C from rfl, ← hjv, ← hjw]
    rw [hclaims]
    rw [htok]
  refine ⟨tok, hgen, ?_⟩
  -- verification
  unfold verifyTWT
  dsimp only [resolveVerifyOptions]
  rw [hsec]
  dsimp only
  rw [decrypt_encrypt ks (jsonStringify (.jobj claims)) s tok htok]
  dsimp only
  rw [jsonParse_jsonStringify _ hwfclaims]
  dsimp only [claimsObjOf]
  rw [show objGet claims "$" = some jv from by
    rw [hclaimsDef, objGet_append, h1]; rfl]
  rw [show objGet claims "$$" = some jw from by
    rw [hclaimsDef, objGet_append, h2]
    dsimp only
    rw [show objGet [("$", jv), ("$$", jw)] "$$" = some jw from by
      rw [objGet, if_neg (show ¬("$" = "$$") by decide), objGet,
        if_pos rfl]]]
  rw [show jsOptToString (some jv) = toBase36 t from by rw [hjv]; rfl]
  rw [show jsOptToString (some jw) = toBase36 (t + 2592000) from by
    rw [hjw]; rfl]
  rw [jsParseInt36_toBase36, jsParseInt36_toBase36]
  dsimp only
  rw [if_neg (by omega : ¬(t ≤ 0)),
    if_neg (by omega : ¬(t + 2592000 ≤ 0)),
    if_neg (by omega : ¬(t + 2592000 < t)),
    if_neg (by
      rintro ⟨hq, -⟩
      omega),
    if_neg (by
      rintro ⟨hq, -⟩
      omega)]
  -- the claims object after the numeric rewrites
  have hset1 : objSet claims "$" (.jnum t)
      = C ++ [("$", JVal.jnum t), ("$$", jw)] := by
    rw [hclaimsDef, objSet_append_of_not_mem _ _ _ _ h1]
    rfl
  have hset2 : objSet (C ++ [("$", JVal.jnum t), ("$$", jw)]) "$$"
        (.jnum (t + 2592000))
      = C ++ [("$", JVal.jnum t), ("$$", JVal.jnum (t + 2592000))] := by
    rw [objSet_append_of_not_mem _ _ _ _ h2]
    rw [show objSet [("$", JVal.jnum t), ("$$", jw)] "$$" (.jnum (t + 2592000))
        = [("$", JVal.jnum t), ("$$", JVal.jnum (t + 2592000))] from by
      rw [objSet, if_neg (show ¬("$" = "$$") by decide), objSet, if_pos rfl]]
  have hset3 : objSet (C ++ [("$", JVal.jnum t),
        ("$$", JVal.jnum (t + 2592000))]) "expiresIn"
        (.jnum (t + 2592000 - t))
      = C ++ [("$", JVal.jnum t), ("$$", JVal.jnum (t + 2592000)),
              ("expiresIn", JVal.jnum 2592000)] := by
    rw [objSet_append_of_not_mem _ _ _ _ h5]
    rw [show objSet [("$", JVal.jnum t), ("$$", JVal.jnum (t + 2592000))]
          "expiresIn" (.jnum (t + 2592000 - t))
        = [("$", JVal.jnum t), ("$$", JVal.jnum (t + 2592000)),
           ("expiresIn", JVal.jnum (t + 2592000 - t))] from by
      rw [objSet, if_neg (show ¬("$" = "expiresIn") by decide), objSet,
        if_neg (show ¬("$$" = "expiresIn") by decide), objSet]]
    rw [show t + 2592000 - t = 2592000 by omega]
  rw [hset1, hset2, hset3]
  -- the final remap
  rw [remapClaims_eq_objFromPairs]
  have hCkeys : ∀ kv ∈ C, kv.1 ≠ "$" ∧ kv.1 ≠ "$$" := by
    intro kv hkv
    exact ⟨(objGet_eq_none_iff C "$").mp h1 kv hkv,
      (objGet_eq_none_iff C "$$").mp h2 kv hkv⟩
  have hmap : (C ++ [("$", JVal.jnum t), ("$$", JVal.jnum (t + 2592000)),
        ("expiresIn", JVal.jnum 2592000)]).map
        (fun kv => (outputKeyRule none kv.1, kv.2))
      = C ++ [("validAt", JVal.jnum t), ("expiresAt", JVal.jnum (t + 2592000)),
              ("expiresIn", JVal.jnum 2592000)] := by
    have hCmap : C.map (fun kv => (outputKeyRule none kv.1, kv.2)) = C := by
      have hmc := List.map_congr_left (l := C)
        (f := fun kv : String × JVal => (outputKeyRule none kv.1, kv.2))
        (g := id) ?_
      · simpa using hmc
      · intro kv hkv
        obtain ⟨ha, hb⟩ := hCkeys kv hkv
        simp only [outputKeyRule, ha, hb, if_false, keyMapLookup, id_eq]
    rw [List.map_append, hCmap]
    simp [outputKeyRule, keyMapLookup]
  rw [hmap]
  -- the mapped keys are pairwise distinct, so assembly is the identity
  have hnodupOut : nodupKeysB (C ++ [("validAt", JVal.jnum t),
      ("expiresAt", JVal.jnum (t + 2592000)),
      ("expiresIn", JVal.jnum 2592000)]) = true := by
    rw [show C ++ [("validAt", JVal.jnum t), ("expiresAt", JVal.jnum (t + 2592000)),
          ("expiresIn", JVal.jnum 2592000)]
        = ((C ++ [("validAt", JVal.jnum t)]) ++ [("expiresAt", JVal.jnum (t + 2592000))])
          ++ [("expiresIn", JVal.jnum 2592000)] by simp]
    refine nodupKeysB_append_single _ _ _
      (nodupKeysB_append_single _ _ _
        (nodupKeysB_append_single _ _ _ hwfC.1 h3) ?_) ?_
    · rw [objGet_append, h4]
      rfl
    · rw [objGet_append, objGet_append, h5]
      rfl
  rw [objFromPairs_nodup _ hnodupOut]

/-! ## Concrete instances

`aes-256-ctr` is modelled as XOR against an arbitrary keystream; the
all-zero keystream instantiates the concrete computations below (the
general theorems hold for every keystream). `testSecret` is the
`encodedSecret` constant of the repository's test suite. -/

def ksZero : Keystream := fun _ _ _ => 0

def testSecret : String :=
  "eyJzZWNyZXRLZXkiOiJmbWxGbXl0SzY5bFJmYl9rLTFsMm9oVG1HSjIyX25KMFdDUWR0YmVUQkRRPSIsIml2IjoieUZ0RHplemhTdFRTbFRwYThGSURTUT09In0="

/-- The token generated from claims `u = "test"` under default options at
clock `1000000000` with `testSecret` and the zero keystream. -/
def testToken : String := "eyJ1IjoidGVzdCIsIiQiOiJnamRneHMiLCIkJCI6ImdreDB4cyJ9"

/-- C1 (counterexample): an options object whose `validAt` lies 10000
seconds ahead of the clock is valid for generation (well under the
one-year bound), yet the generated token immediately fails verification
at the same clock with an `ETIME` error, because 10000 exceeds the
default 120-second drift tolerance; so the round trip does not hold for
every valid options object. -/
theorem roundTrip_future_validAt_cex :
    generateTWT ksZero 1000000000 (some [("u", .jstr "test")])
        (some ⟨.vnum (.fin 1000010000), .undef, .vstr testSecret⟩)
      = .ok "eyJ1IjoidGVzdCIsIiQiOiJnamRvbmsiLCIkJCI6ImdreDhuayJ9"
    ∧ verifyTWT ksZero 1000000000 "eyJ1IjoidGVzdCIsIiQiOiJnamRvbmsiLCIkJCI6ImdreDhuayJ9"
        (.obj ⟨.vstr testSecret, none, .undef⟩)
      = .error (.twt "ETIME" "Token is not yet valid") :=
  ⟨rfl, rfl⟩

/-- Witness for C1: the amended round trip at the test suite's scenario
(claims `u = "test"`, default options, `testSecret`, clock `1000000000`). -/
theorem roundTrip_default_options_witness :
    ∃ tok,
      generateTWT ksZero 1000000000 (some [("u", .jstr "test")])
          (some ⟨.undef, .undef, .vstr testSecret⟩) = .ok tok
      ∧ verifyTWT ksZero 1000000000 tok (.obj ⟨.vstr testSecret, none, .undef⟩)
          = .ok ([("u", .jstr "test")]
              ++ [("validAt", .jnum 1000000000),
                  ("expiresAt", .jnum (1000000000 + 2592000)),
                  ("expiresIn", .jnum 2592000)]) :=
  roundTrip_default_options ksZero 1000000000 [("u", .jstr "test")] testSecret
    (by decide) rfl rfl rfl rfl rfl rfl rfl

/-- C10: a string second argument to `verifyTWT` is treated as the
`encodedSecret` itself: for every keystream, clock, token and string `s`,
verification with `s` behaves identically to verification with an options
object carrying `encodedSecret = s`, no `keyMap`, and an unset clock-drift
tolerance (which resolves to the default 120). -/
theorem verify_string_options (ks : Keystream) (now : Int) (token s : String) :
    verifyTWT ks now token (.str s)
      = verifyTWT ks now token (.obj ⟨.vstr s, none, .undef⟩) := rfl

/-- C8: for every byte sequence, decoding the URL-safe base64 encoding
returns exactly the original bytes, and the encoded text never contains
the characters `+` or `/`. -/
theorem urlSafeBase64_roundTrip (bs : List Nat) (h : ∀ b ∈ bs, b < 256) :
    fromURLSafeBase64Bytes (toURLSafeBase64 bs) = bs
    ∧ ∀ c ∈ (toURLSafeBase64 bs).data, c ≠ '+' ∧ c ≠ '/' :=
  ⟨fromURLSafeBase64Bytes_toURLSafeBase64 bs h, toURLSafeBase64_no_plus_slash bs⟩

/-- Witness for C8: the round trip at a concrete five-byte input whose
standard base64 encoding exercises the `+`/`/` substitution. -/
theorem urlSafeBase64_roundTrip_witness :
    fromURLSafeBase64Bytes (toURLSafeBase64 [0, 251, 239, 190, 16])
      = [0, 251, 239, 190, 16]
    ∧ ∀ c ∈ (toURLSafeBase64 [0, 251, 239, 190, 16]).data, c ≠ '+' ∧ c ≠ '/' :=
  urlSafeBase64_roundTrip [0, 251, 239, 190, 16] (by decide)

/-- C5 (counterexample): `aes-256-ctr` is malleable, so a single-character
mutation of a valid token need not be rejected. The token generated in
the test scenario and the same token with one character substituted (and
no other difference — both are 52 characters long and differ in exactly
one position) both verify successfully; the mutation simply lands in the
`u` claim, which verifies to `"tast"` instead of `"test"`. -/
theorem tamper_mutation_accepted_cex :
    generateTWT ksZero 1000000000 (some [("u", .jstr "test")])
        (some ⟨.undef, .undef, .vstr testSecret⟩) = .ok testToken
    ∧ testToken.length = 52
    ∧ ("eyJ1IjoidGFzdCIsIiQiOiJnamRneHMiLCIkJCI6ImdreDB4cyJ9" : String).length = 52
    ∧ ((testToken.data.zip
          ("eyJ1IjoidGFzdCIsIiQiOiJnamRneHMiLCIkJCI6ImdreDB4cyJ9" : String).data).filter
          (fun p => p.1 != p.2)).length = 1
    ∧ verifyTWT ksZero 1000000000 "eyJ1IjoidGFzdCIsIiQiOiJnamRneHMiLCIkJCI6ImdreDB4cyJ9"
        (.obj ⟨.vstr testSecret, none, .undef⟩)
      = .ok [("u", .jstr "tast"), ("validAt", .jnum 1000000000),
             ("expiresAt", .jnum 1002592000), ("expiresIn", .jnum 2592000)] :=
  ⟨rfl, rfl, rfl, rfl, rfl⟩

/-- C5 (amended): tampering is detected only when the mangled plaintext
fails JSON parsing — there is no integrity tag. In the test scenario,
prefixing one character to the valid token shifts the base64 framing and
verification fails with a parse error; a single-character substitution,
by contrast, can verify successfully with altered claims (the
counterexample above). -/
theorem tamper_prefix_parse_error :
    generateTWT ksZero 1000000000 (some [("u", .jstr "test")])
        (some ⟨.undef, .undef, .vstr testSecret⟩) = .ok testToken
    ∧ verifyTWT ksZero 1000000000 ("t" ++ testToken)
        (.obj ⟨.vstr testSecret, none, .undef⟩)
      = .error (.twt "EPARSE" "Parsing error: invalid JSON") :=
  ⟨rfl, rfl⟩

/-- C7 (counterexample): a `keyMap` entry whose value is the empty string
is falsy, so the `(keyMap && keyMap[key]) || key` lookup falls back to
the original key: with the map `u ↦ ""` the output keeps the key `u`,
where the claimed rule (`keyMap[key]` whenever the key is present in the
map) would output the key `""`. -/
theorem keyMap_empty_value_cex :
    verifyTWT ksZero 1000000000 testToken
        (.obj ⟨.vstr testSecret, some [("u", "")], .undef⟩)
      = .ok [("u", .jstr "test"), ("validAt", .jnum 1000000000),
             ("expiresAt", .jnum 1002592000), ("expiresIn", .jnum 2592000)]
    ∧ keyMapLookup (some [("u", "")]) "u" = "u" :=
  ⟨rfl, rfl⟩

/-- Every successful verification returns the remap loop's output. -/
theorem verifyTWT_ok_shape (ks : Keystream) (now : Int) (token : String)
    (arg : VerifyArg) (out : JSObj)
    (h : verifyTWT ks now token arg = .ok out) :
    ∃ c, out = remapClaims (resolveVerifyOptions arg).keyMap c := by
  unfold verifyTWT at h
  dsimp only at h
  repeat' split at h
  all_goals simp at h
  all_goals exact ⟨_, h.symm⟩

/-- C7 (amended): whenever `verifyTWT` succeeds, its output is the
internal claims object (with `$`/`$$` rewritten to numbers and
`expiresIn` appended) reassembled with every key renamed by the
output-key rule: `$` always becomes `validAt` and `$$` always becomes
`expiresAt` (taking precedence over any `keyMap` entry), and any other
key becomes its `keyMap` image when that image is a truthy (non-empty)
string — not merely when the key is present in the map — and otherwise
stays itself; later entries overwrite earlier ones on key collision. -/
theorem verify_output_key_rule (ks : Keystream) (now : Int) (token : String)
    (arg : VerifyArg) (out : JSObj)
    (h : verifyTWT ks now token arg = .ok out) :
    ∃ c : JSObj, out = objFromPairs (c.map (fun kv =>
        (outputKeyRule (resolveVerifyOptions arg).keyMap kv.1, kv.2))) := by
  obtain ⟨c, hc⟩ := verifyTWT_ok_shape ks now token arg out h
  exact ⟨c, hc.trans (remapClaims_eq_objFromPairs _ c)⟩

/-- Witness for C7: the rule at the test token under the key-rename map
`u ↦ "userID"` (the claim `u` is exposed as `userID`, the time keys as
`validAt`/`expiresAt`). -/
theorem verify_output_key_rule_witness :
    ∃ c : JSObj, [("userID", JVal.jstr "test"), ("validAt", JVal.jnum 1000000000),
          ("expiresAt", JVal.jnum 1002592000), ("expiresIn", JVal.jnum 2592000)]
      = objFromPairs (c.map (fun kv =>
          (outputKeyRule (resolveVerifyOptions
              (.obj ⟨.vstr testSecret, some [("u", "userID")], .undef⟩)).keyMap
            kv.1, kv.2))) :=
  verify_output_key_rule ksZero 1000000000 testToken
    (.obj ⟨.vstr testSecret, some [("u", "userID")], .undef⟩)
    [("userID", JVal.jstr "test"), ("validAt", JVal.jnum 1000000000),
     ("expiresAt", JVal.jnum 1002592000), ("expiresIn", JVal.jnum 2592000)]
    rfl

/-- C4 (counterexample): an `encodedSecret` decoding to the JSON text
`null` passes the guarded decode (the outer `try`/`catch`), but the
subsequent `encodedSecretResult.secretKey` access sits outside any
`try`, so the call dies with an uncaught `TypeError` — not with the
`ESECRET` `TWTError` kind the claim promises for every malformed
secret. -/
theorem secret_null_json_typeError_cex :
    verifyTWT ksZero 1000000000 "x" (.obj ⟨.vstr "bnVsbA==", none, .undef⟩)
      = .error (.typeError "Cannot read properties of null (reading 'secretKey')") :=
  rfl

/-- The failing `encodedSecret` shapes of the claim that do reach the
`ESECRET` error in the source: a falsy value; a string that does not
decode to JSON; a decoded object with a falsy `secretKey` or `iv`; a
string `secretKey` of the wrong decoded length; or a string `iv` of the
wrong decoded length. (A decoded JSON `null`, or a truthy non-string
`secretKey`/`iv`, instead raises an uncaught `TypeError`.) -/
def badSecretCase (es : JSVal) : Prop :=
  es.truthy = false
  ∨ (∃ s, es = .vstr s ∧ getSaltProperties s = none)
  ∨ (∃ s props, es = .vstr s ∧ getSaltProperties s = some props
      ∧ isJNull props = false
      ∧ (optTruthy (jGetProp props "secretKey") = false
         ∨ optTruthy (jGetProp props "iv") = false))
  ∨ (∃ s props sk, es = .vstr s ∧ getSaltProperties s = some props
      ∧ jGetProp props "secretKey" = some (.jstr sk)
      ∧ (fromURLSafeBase64Bytes sk).length ≠ 32)
  ∨ (∃ s props sk iv, es = .vstr s ∧ getSaltProperties s = some props
      ∧ jGetProp props "secretKey" = some (.jstr sk)
      ∧ (fromURLSafeBase64Bytes sk).length = 32
      ∧ jGetProp props "iv" = some (.jstr iv)
      ∧ (fromURLSafeBase64Bytes iv).length ≠ 16)

/-- `jGetProp` only answers on objects, which are never JSON `null`. -/
theorem isJNull_of_jGetProp (props : JVal) (k : String) (v : JVal)
    (h : jGetProp props k = some v) : isJNull props = false := by
  cases props <;> first | rfl | exact absurd h (by simp [jGetProp])

/-- Every bad-secret shape makes `validateEncodedSecret` fail with
`ESECRET`. -/
theorem validateEncodedSecret_bad (es : JSVal) (h : badSecretCase es) :
    ∃ msg, validateEncodedSecret es = .error (.twt "ESECRET" msg) := by
  by_cases htr : es.truthy = false
  · exact ⟨secretMsgMain, by unfold validateEncodedSecret; rw [if_pos htr]⟩
  · rcases h with h | ⟨s, rfl, hsalt⟩ | ⟨s, props, rfl, hsalt, hnull, hfalsy⟩
      | ⟨s, props, sk, rfl, hsalt, hsk, hlen⟩
      | ⟨s, props, sk, iv, rfl, hsalt, hsk, hlk, hiv, hli⟩
    · exact absurd h htr
    · refine ⟨secretMsgMain, ?_⟩
      unfold validateEncodedSecret
      rw [if_neg htr]
      dsimp only
      rw [hsalt]
    · refine ⟨secretMsgMain, ?_⟩
      unfold validateEncodedSecret
      rw [if_neg htr]
      dsimp only
      rw [hsalt]
      dsimp only
      rw [if_neg (by simp [hnull]), if_pos (by
        rcases hfalsy with hf | hf <;> simp [hf])]
    · unfold validateEncodedSecret
      rw [if_neg htr]
      dsimp only
      rw [hsalt]
      dsimp only
      rw [if_neg (by simp [isJNull_of_jGetProp props "secretKey" _ hsk])]
      by_cases hiv : optTruthy (jGetProp props "iv") = false
      · rw [if_pos (by simp [hiv])]
        exact ⟨_, rfl⟩
      · by_cases hskt : optTruthy (jGetProp props "secretKey") = false
        · rw [if_pos (by simp [hskt])]
          exact ⟨_, rfl⟩
        · rw [if_neg (by simp [hskt, hiv]), hsk]
          dsimp only
          rw [if_pos hlen]
          exact ⟨_, rfl⟩
    · unfold validateEncodedSecret
      rw [if_neg htr]
      dsimp only
      rw [hsalt]
      dsimp only
      rw [if_neg (by simp [isJNull_of_jGetProp props "secretKey" _ hsk])]
      by_cases hivt : optTruthy (jGetProp props "iv") = false
      · rw [if_pos (by simp [hivt])]
        exact ⟨_, rfl⟩
      · by_cases hskt : optTruthy (jGetProp props "secretKey") = false
        · rw [if_pos (by simp [hskt])]
          exact ⟨_, rfl⟩
        · rw [if_neg (by simp [hskt, hivt]), hsk]
          dsimp only
          rw [if_neg (by omega), hiv]
          dsimp only
          rw [if_pos hli]
          exact ⟨_, rfl⟩

/-- C4 (amended): for every `encodedSecret` that is falsy or missing, not
URL-safe-base64-encoded JSON, has a falsy `secretKey` or `iv`, or whose
string `secretKey` does not decode to exactly 32 bytes or string `iv`
not to exactly 16 bytes, both `verifyTWT` (under any `keyMap` and drift
setting) and `generateTWT` (under default time options) fail with the
`ESECRET` error kind; the verify-side failure is the same for every
token, so the check runs before the token is decrypted or examined. The
claim's remaining malformed shapes — a secret decoding to JSON `null`,
or a truthy non-string `secretKey`/`iv` — die with an uncaught
`TypeError` instead (see the counterexample). -/
theorem badSecret_ESECRET (ks : Keystream) (now : Int) (token : String)
    (props : Option JSObj) (keyMap : Option (List (String × String)))
    (driftVal es : JSVal) (h : badSecretCase es) :
    (∃ msg, verifyTWT ks now token (.obj ⟨es, keyMap, driftVal⟩)
        = .error (.twt "ESECRET" msg))
    ∧ (∃ msg, generateTWT ks now props (some ⟨.undef, .undef, es⟩)
        = .error (.twt "ESECRET" msg)) := by
  obtain ⟨msg, hmsg⟩ := validateEncodedSecret_bad es h
  constructor
  · refine ⟨msg, ?_⟩
    unfold verifyTWT
    dsimp only [resolveVerifyOptions]
    rw [hmsg]
  · refine ⟨msg, ?_⟩
    unfold generateTWT
    rw [show postDefault now (some ⟨.undef, .undef, es⟩)
        = ⟨.vnum (.fin now), .vnum (.fin (now + 2592000)), es⟩ from rfl]
    dsimp only
    rw [show validateOptions now
          ⟨.vnum (.fin now), .vnum (.fin (now + 2592000)), es⟩
        = validateEncodedSecret es from by
      unfold validateOptions
      dsimp only
      rw [if_neg (by simp [JSNum.ltB]),
        if_neg (by simp only [JSNum.gtB, JSNum.ltB, decide_eq_true_eq]; omega),
        if_neg (by simp only [JSNum.ltB, decide_eq_true_eq]; omega),
        if_neg (by simp only [JSNum.ltB, decide_eq_true_eq]; omega),
        if_neg (by simp only [JSNum.sub, JSNum.gtB, JSNum.ltB,
          decide_eq_true_eq]; omega)]]
    rw [hmsg]

/-- Witness for C4: a secret that is not base64-encoded JSON (the decoded
text fails JSON parsing), at a concrete verify and generate call. -/
theorem badSecret_ESECRET_witness :
    (∃ msg, verifyTWT ksZero 1000000000 "x" (.obj ⟨.vstr "x", none, .undef⟩)
        = .error (.twt "ESECRET" msg))
    ∧ (∃ msg, generateTWT ksZero 1000000000 (some [])
        (some ⟨.undef, .undef, .vstr "x"⟩)
        = .error (.twt "ESECRET" msg)) :=
  badSecret_ESECRET ksZero 1000000000 "x" (some []) none .undef (.vstr "x")
    (Or.inr (Or.inl ⟨"x", rfl, rfl⟩))

/-- C6 (counterexample): a token whose decrypted JSON object lacks the
`$`/`$$` fields is not surfaced as a parse error. The reads come back
`undefined`, `parseInt('undefined', 36)` throws nothing — it returns a
(large, positive) number — so the claimed `EPARSE` never happens: the
token `eyJ1IjoxfQ==` decrypts to a well-formed object with no time
fields yet fails with the `ETIME` kind ("Token is not yet valid",
because the coerced `$` exceeds the clock). -/
theorem missing_time_fields_ETIME_cex :
    verifyTWT ksZero 1000000000 "eyJ1IjoxfQ==" (.obj ⟨.vstr testSecret, none, .undef⟩)
      = .error (.twt "ETIME" "Token is not yet valid")
    ∧ jsParseInt36 (jsOptToString (objGet [("u", .jnum 1)] "$"))
      = .fin 86464843759093 :=
  ⟨rfl, rfl⟩

/-- C6 (amended): after successful decryption, only malformed JSON is
surfaced as the `EPARSE` kind; missing `$`/`$$` fields or non-base-36
time fields do not raise parse errors — `parseInt` returns a number or
`NaN` without throwing — and instead fail the structural time checks
with the `ETIME` kind: concretely, a missing-fields token fails as "not
yet valid" and a token with unparseable (`"!!"`) time fields as "Invalid
token". -/
theorem parse_vs_time_errors :
    (∀ (ks : Keystream) (now : Int) (token s : String)
       (keyMap : Option (List (String × String))) (driftVal : JSVal)
       (dtext : String),
       validateEncodedSecret (.vstr s) = .ok () →
       decrypt ks token s = .ok dtext →
       jsonParse dtext = none →
       verifyTWT ks now token (.obj ⟨.vstr s, keyMap, driftVal⟩)
         = .error (.twt "EPARSE" "Parsing error: invalid JSON"))
    ∧ verifyTWT ksZero 1000000000 "eyJ1IjoxfQ=="
        (.obj ⟨.vstr testSecret, none, .undef⟩)
      = .error (.twt "ETIME" "Token is not yet valid")
    ∧ verifyTWT ksZero 1000000000 "eyIkIjoiISEiLCIkJCI6IiEhIn0="
        (.obj ⟨.vstr testSecret, none, .undef⟩)
      = .error (.twt "ETIME" "Invalid token") := by
  refine ⟨?_, rfl, rfl⟩
  intro ks now token s keyMap driftVal dtext hsec hdec hparse
  unfold verifyTWT
  dsimp only [resolveVerifyOptions]
  rw [hsec]
  dsimp only
  rw [hdec]
  dsimp only
  rw [hparse]

/-- Witness for C6: a token of invalid base64 characters decrypts to the
empty string, which fails JSON parsing and is reported as `EPARSE`. -/
theorem parse_vs_time_errors_witness :
    verifyTWT ksZero 5 "!!!" (.obj ⟨.vstr testSecret, none, .undef⟩)
      = .error (.twt "EPARSE" "Parsing error: invalid JSON") :=
  parse_vs_time_errors.1 ksZero 5 "!!!" testSecret none (.undef) "" rfl rfl rfl

/-- C2: for every decrypted token whose parsed `$`/`$$` fields are finite
positive numbers with `$ ≤ $$`, and every clock `now` and drift
tolerance (the `allowableClockDriftSeconds` option when that is a finite
number, else 120), verification fails as "not yet valid" exactly when
`now - $` is negative with magnitude above the tolerance, fails as
"has expired" exactly when `$$ - now` is negative with magnitude above
the tolerance, and succeeds whenever neither condition holds. -/
theorem verify_window_iff (ks : Keystream) (now : Int) (token s dtext : String)
    (keyMap : Option (List (String × String))) (driftVal : JSVal)
    (parsed : JVal) (c : JSObj) (a b : Int)
    (hsec : validateEncodedSecret (.vstr s) = .ok ())
    (hdec : decrypt ks token s = .ok dtext)
    (hparse : jsonParse dtext = some parsed)
    (hobj : claimsObjOf parsed = some c)
    (ha : jsParseInt36 (jsOptToString (objGet c "$")) = .fin a)
    (hb : jsParseInt36 (jsOptToString (objGet c "$$")) = .fin b)
    (hA : 0 < a) (hB : 0 < b) (hab : a ≤ b) :
    (verifyTWT ks now token (.obj ⟨.vstr s, keyMap, driftVal⟩)
        = .error (.twt "ETIME" "Token is not yet valid")
      ↔ now - a < 0 ∧ resolveDrift driftVal < |now - a|)
    ∧ (verifyTWT ks now token (.obj ⟨.vstr s, keyMap, driftVal⟩)
        = .error (.twt "ETIME" "Token has expired")
      ↔ b - now < 0 ∧ resolveDrift driftVal < |b - now|)
    ∧ (¬(now - a < 0 ∧ resolveDrift driftVal < |now - a|) →
       ¬(b - now < 0 ∧ resolveDrift driftVal < |b - now|) →
       ∃ out, verifyTWT ks now token (.obj ⟨.vstr s, keyMap, driftVal⟩)
         = .ok out) := by
  have hres : verifyTWT ks now token (.obj ⟨.vstr s, keyMap, driftVal⟩)
      = (if now - a < 0 ∧ resolveDrift driftVal < |now - a| then
           .error (.twt "ETIME" "Token is not yet valid")
         else if b - now < 0 ∧ resolveDrift driftVal < |b - now| then
           .error (.twt "ETIME" "Token has expired")
         else .ok (remapClaims keyMap (objSet (objSet (objSet c "$" (.jnum a))
           "$$" (.jnum b)) "expiresIn" (.jnum (b - a))))) := by
    unfold verifyTWT
    dsimp only [resolveVerifyOptions]
    rw [hsec]
    dsimp only
    rw [hdec]
    dsimp only
    rw [hparse]
    dsimp only
    rw [hobj]
    dsimp only
    rw [ha]
    dsimp only
    rw [if_neg (show ¬ a ≤ 0 by omega)]
    rw [hb]
    dsimp only
    rw [if_neg (show ¬ b ≤ 0 by omega), if_neg (show ¬ b < a by omega)]
  by_cases hc1 : now - a < 0 ∧ resolveDrift driftVal < |now - a|
  · have h1 : verifyTWT ks now token (.obj ⟨.vstr s, keyMap, driftVal⟩)
        = .error (.twt "ETIME" "Token is not yet valid") := by
      rw [hres, if_pos hc1]
    have hnc2 : ¬(b - now < 0 ∧ resolveDrift driftVal < |b - now|) := by
      intro hc2
      have := hc1.1
      have := hc2.1
      omega
    refine ⟨⟨fun _ => hc1, fun _ => h1⟩, ⟨?_, fun hc2 => absurd hc2 hnc2⟩,
      fun hn1 _ => absurd hc1 hn1⟩
    intro heq
    rw [h1] at heq
    simp at heq
  · by_cases hc2 : b - now < 0 ∧ resolveDrift driftVal < |b - now|
    · have h2 : verifyTWT ks now token (.obj ⟨.vstr s, keyMap, driftVal⟩)
          = .error (.twt "ETIME" "Token has expired") := by
        rw [hres, if_neg hc1, if_pos hc2]
      refine ⟨⟨?_, fun hc1' => absurd hc1' hc1⟩, ⟨fun _ => hc2, fun _ => h2⟩,
        fun _ hn2 => absurd hc2 hn2⟩
      intro heq
      rw [h2] at heq
      simp at heq
    · have h3 : verifyTWT ks now token (.obj ⟨.vstr s, keyMap, driftVal⟩)
          = .ok (remapClaims keyMap (objSet (objSet (objSet c "$" (.jnum a))
            "$$" (.jnum b)) "expiresIn" (.jnum (b - a)))) := by
        rw [hres, if_neg hc1, if_neg hc2]
      refine ⟨⟨?_, fun hc1' => absurd hc1' hc1⟩,
        ⟨?_, fun hc2' => absurd hc2' hc2⟩, fun _ _ => ⟨_, h3⟩⟩
      · intro heq
        rw [h3] at heq
        simp at heq
      · intro heq
        rw [h3] at heq
        simp at heq

/-- Witness for C2: the window checks at the test token (`$` is
1000000000, `$$` is 1002592000) with the clock at 1000000000 and an
unset drift option: verification is inside the window, so both failure
conditions are false and the call succeeds. -/
theorem verify_window_iff_witness :
    (verifyTWT ksZero 1000000000 testToken
        (.obj ⟨.vstr testSecret, none, .undef⟩)
        = .error (.twt "ETIME" "Token is not yet valid")
      ↔ (1000000000 : Int) - 1000000000 < 0
        ∧ resolveDrift .undef < |(1000000000 : Int) - 1000000000|)
    ∧ (verifyTWT ksZero 1000000000 testToken
        (.obj ⟨.vstr testSecret, none, .undef⟩)
        = .error (.twt "ETIME" "Token has expired")
      ↔ (1002592000 : Int) - 1000000000 < 0
        ∧ resolveDrift .undef < |(1002592000 : Int) - 1000000000|)
    ∧ (¬((1000000000 : Int) - 1000000000 < 0
          ∧ resolveDrift .undef < |(1000000000 : Int) - 1000000000|) →
       ¬((1002592000 : Int) - 1000000000 < 0
          ∧ resolveDrift .undef < |(1002592000 : Int) - 1000000000|) →
       ∃ out, verifyTWT ksZero 1000000000 testToken
         (.obj ⟨.vstr testSecret, none, .undef⟩) = .ok out) :=
  verify_window_iff ksZero 1000000000 testToken testSecret
    "\x7b\"u\":\"test\",\"$\":\"gjdgxs\",\"$$\":\"gkx0xs\"\x7d" none (.undef)
    (.jobj [("u", .jstr "test"), ("$", .jstr "gjdgxs"), ("$$", .jstr "gkx0xs")])
    [("u", .jstr "test"), ("$", .jstr "gjdgxs"), ("$$", .jstr "gkx0xs")]
    1000000000 1002592000 rfl rfl rfl rfl rfl rfl
    (by decide) (by decide) (by decide)

/-- Adding a constant to a truthy value never yields `NaN` (the truthy
values are booleans, non-zero finite numbers, infinities, non-empty
strings and objects, and addition sends each to a non-`NaN` result). -/
theorem truthy_addInt_not_nan (v : JSVal) (hv : v.truthy = true) (k : Int) :
    v.addInt k ≠ .vnum .nan := by
  cases v with
  | undef => simp [JSVal.truthy] at hv
  | vnull => simp [JSVal.truthy] at hv
  | vbool b => simp [JSVal.addInt]
  | vnum n =>
    cases n with
    | fin m => simp [JSVal.addInt, JSNum.addInt]
    | nan => simp [JSVal.truthy] at hv
    | inf => simp [JSVal.addInt, JSNum.addInt]
    | ninf => simp [JSVal.addInt, JSNum.addInt]
  | vstr s => simp [JSVal.addInt]
  | vmap m => simp [JSVal.addInt]

/-- After defaulting, `validAt` is either the caller's truthy value or
the clock. -/
theorem postDefault_validAt_shape (now : Int) (optsArg : Option GenOptions) :
    (postDefault now optsArg).validAt.truthy = true
    ∨ (postDefault now optsArg).validAt = .vnum (.fin now) := by
  unfold postDefault
  dsimp only
  by_cases h1 : (optsArg.getD ⟨.undef, .undef, .undef⟩).validAt.truthy
  · rw [if_pos h1]
    by_cases h2 : (optsArg.getD ⟨.undef, .undef, .undef⟩).expiresAt.truthy
    · rw [if_pos h2]
      exact Or.inl h1
    · rw [if_neg h2]
      exact Or.inl h1
  · rw [if_neg h1]
    by_cases h2 : ({ optsArg.getD ⟨.undef, .undef, .undef⟩ with
        validAt := .vnum (.fin now) } : GenOptions).expiresAt.truthy
    · rw [if_pos h2]
      exact Or.inr rfl
    · rw [if_neg h2]
      exact Or.inr rfl

/-- After defaulting, `validAt` is never `NaN` (NaN is falsy, so a `NaN`
input is replaced by the clock). -/
theorem postDefault_validAt_not_nan (now : Int) (optsArg : Option GenOptions) :
    (postDefault now optsArg).validAt ≠ .vnum .nan := by
  rcases postDefault_validAt_shape now optsArg with h | h
  · intro hc
    rw [hc] at h
    exact absurd h (by simp [JSVal.truthy])
  · rw [h]
    simp

/-- After defaulting, `expiresAt` is either the caller's truthy value or
the defaulted `validAt` plus the default window. -/
theorem postDefault_expiresAt_shape (now : Int) (optsArg : Option GenOptions) :
    (postDefault now optsArg).expiresAt.truthy = true
    ∨ (postDefault now optsArg).expiresAt
        = (postDefault now optsArg).validAt.addInt 2592000 := by
  unfold postDefault
  dsimp only
  by_cases h2 : (if (optsArg.getD ⟨.undef, .undef, .undef⟩).validAt.truthy
      then optsArg.getD ⟨.undef, .undef, .undef⟩
      else { optsArg.getD ⟨.undef, .undef, .undef⟩ with
        validAt := .vnum (.fin now) }).expiresAt.truthy
  · rw [if_pos h2]
    exact Or.inl h2
  · rw [if_neg h2]
    exact Or.inr rfl

/-- After defaulting, `expiresAt` is never `NaN`. -/
theorem postDefault_expiresAt_not_nan (now : Int) (optsArg : Option GenOptions) :
    (postDefault now optsArg).expiresAt ≠ .vnum .nan := by
  rcases postDefault_expiresAt_shape now optsArg with h | h
  · intro hc
    rw [hc] at h
    exact absurd h (by simp [JSVal.truthy])
  · rw [h]
    rcases postDefault_validAt_shape now optsArg with h1 | h1
    · exact truthy_addInt_not_nan _ h1 _
    · rw [h1]
      simp [JSVal.addInt, JSNum.addInt]

/-- The specification's `validAt` failure condition: not a finite number
(after defaulting, `NaN` cannot occur), sooner than `now`, or more than
a year (31557600 seconds) ahead of `now`. -/
def badValidAt (now : Int) : JSVal → Prop
  | .vnum (.fin n) => n < now ∨ now + 31557600 < n
  | _ => True

/-- The specification's `expiresAt` failure condition: not a finite
number, sooner than `now`, sooner than `validAt`, or more than a year
past `validAt`. -/
def badExpiresAt (now va : Int) : JSVal → Prop
  | .vnum (.fin n) => n < now ∨ n < va ∨ va + 31557600 < n
  | _ => True

/-- A validation failure on the defaulted options is a generation
failure with the same error. -/
theorem generateTWT_of_validate_error (ks : Keystream) (now : Int)
    (props : Option JSObj) (optsArg : Option GenOptions) (e : JSErr)
    (he : validateOptions now (postDefault now optsArg) = .error e) :
    generateTWT ks now props optsArg = .error e := by
  unfold generateTWT
  dsimp only
  rw [he]

/-- C3: generation-time validation checks the rules in source order with
the first failure winning: on every options object (after the falsy
defaulting of `validAt`/`expiresAt`) whose `validAt` violates its rule,
`generateTWT` fails with the `EVALIDAT` kind — regardless of
`expiresAt` and of the secret, so the `validAt` check precedes both —
and on every options object whose `validAt` passes but whose `expiresAt`
violates its rule, it fails with the `EEXPIRESAT` kind, regardless of
the secret. -/
theorem generate_validation_order (ks : Keystream) (now : Int)
    (props : Option JSObj) (optsArg : Option GenOptions) :
    (badValidAt now (postDefault now optsArg).validAt →
      ∃ msg, generateTWT ks now props optsArg
        = .error (.twt "EVALIDAT" msg))
    ∧ (∀ va : Int, (postDefault now optsArg).validAt = .vnum (.fin va) →
        now ≤ va → va ≤ now + 31557600 →
        badExpiresAt now va (postDefault now optsArg).expiresAt →
        ∃ msg, generateTWT ks now props optsArg
          = .error (.twt "EEXPIRESAT" msg)) := by
  constructor
  · intro hbad
    have hvo : ∃ msg, validateOptions now (postDefault now optsArg)
        = .error (.twt "EVALIDAT" msg) := by
      cases hva : (postDefault now optsArg).validAt with
      | vnum n =>
        cases n with
        | fin m =>
          rw [hva] at hbad
          have hbad' : m < now ∨ now + 31557600 < m := hbad
          unfold validateOptions
          rw [hva]
          dsimp only
          by_cases h1 : m < now
          · rw [if_pos (show JSNum.ltB (.fin m) (.fin now) = true by
              simp only [JSNum.ltB, decide_eq_true_eq]; omega)]
            exact ⟨_, rfl⟩
          · rw [if_neg (show ¬ JSNum.ltB (.fin m) (.fin now) = true by
                simp only [JSNum.ltB, decide_eq_true_eq]; omega),
              if_pos (show JSNum.gtB (.fin m) (.fin (now + 31557600)) = true by
                simp only [JSNum.gtB, JSNum.ltB, decide_eq_true_eq]; omega)]
            exact ⟨_, rfl⟩
        | nan => exact absurd hva (postDefault_validAt_not_nan now optsArg)
        | inf =>
          unfold validateOptions
          rw [hva]
          dsimp only
          rw [if_neg (by simp [JSNum.ltB]),
            if_pos (by simp [JSNum.gtB, JSNum.ltB])]
          exact ⟨_, rfl⟩
        | ninf =>
          unfold validateOptions
          rw [hva]
          dsimp only
          rw [if_pos (by simp [JSNum.ltB])]
          exact ⟨_, rfl⟩
      | undef =>
        unfold validateOptions
        rw [hva]
        exact ⟨_, rfl⟩
      | vnull =>
        unfold validateOptions
        rw [hva]
        exact ⟨_, rfl⟩
      | vbool b =>
        unfold validateOptions
        rw [hva]
        exact ⟨_, rfl⟩
      | vstr s =>
        unfold validateOptions
        rw [hva]
        exact ⟨_, rfl⟩
      | vmap m =>
        unfold validateOptions
        rw [hva]
        exact ⟨_, rfl⟩
    obtain ⟨msg, hmsg⟩ := hvo
    exact ⟨msg, generateTWT_of_validate_error ks now props optsArg _ hmsg⟩
  · intro va hva hge hle hbad
    have hvo : ∃ msg, validateOptions now (postDefault now optsArg)
        = .error (.twt "EEXPIRESAT" msg) := by
      unfold validateOptions
      rw [hva]
      dsimp only
      rw [if_neg (show ¬ JSNum.ltB (.fin va) (.fin now) = true by
          simp only [JSNum.ltB, decide_eq_true_eq]; omega),
        if_neg (show ¬ JSNum.gtB (.fin va) (.fin (now + 31557600)) = true by
          simp only [JSNum.gtB, JSNum.ltB, decide_eq_true_eq]; omega)]
      cases hea : (postDefault now optsArg).expiresAt with
      | vnum n =>
        cases n with
        | fin m =>
          rw [hea] at hbad
          have hbad' : m < now ∨ m < va ∨ va + 31557600 < m := hbad
          dsimp only
          by_cases h1 : m < now
          · rw [if_pos (show JSNum.ltB (.fin m) (.fin now) = true by
              simp only [JSNum.ltB, decide_eq_true_eq]; omega)]
            exact ⟨_, rfl⟩
          · rw [if_neg (show ¬ JSNum.ltB (.fin m) (.fin now) = true by
              simp only [JSNum.ltB, decide_eq_true_eq]; omega)]
            by_cases h2 : m < va
            · rw [if_pos (show JSNum.ltB (.fin m) (.fin va) = true by
                simp only [JSNum.ltB, decide_eq_true_eq]; omega)]
              exact ⟨_, rfl⟩
            · rw [if_neg (show ¬ JSNum.ltB (.fin m) (.fin va) = true by
                  simp only [JSNum.ltB, decide_eq_true_eq]; omega),
                if_pos (show JSNum.gtB (JSNum.sub (.fin m) (.fin va))
                    (.fin 31557600) = true by
                  simp only [JSNum.sub, JSNum.gtB, JSNum.ltB,
                    decide_eq_true_eq]
                  omega)]
              exact ⟨_, rfl⟩
        | nan => exact absurd hea (postDefault_expiresAt_not_nan now optsArg)
        | inf =>
          dsimp only
          rw [if_neg (by simp [JSNum.ltB]), if_neg (by simp [JSNum.ltB]),
            if_pos (by simp [JSNum.sub, JSNum.gtB, JSNum.ltB])]
          exact ⟨_, rfl⟩
        | ninf =>
          dsimp only
          rw [if_pos (by simp [JSNum.ltB])]
          exact ⟨_, rfl⟩
      | undef => exact ⟨_, rfl⟩
      | vnull => exact ⟨_, rfl⟩
      | vbool b => exact ⟨_, rfl⟩
      | vstr s => exact ⟨_, rfl⟩
      | vmap m => exact ⟨_, rfl⟩
    obtain ⟨msg, hmsg⟩ := hvo
    exact ⟨msg, generateTWT_of_validate_error ks now props optsArg _ hmsg⟩

/-- Witness for C3: at clock 100, a caller `validAt` of 50 (truthy, kept
by defaulting) is sooner than `now` and generation fails `EVALIDAT`; and
a caller `validAt` of 100 with `expiresAt` 99 fails `EEXPIRESAT`. -/
theorem generate_validation_order_witness :
    (∃ msg, generateTWT ksZero 100 none
        (some ⟨.vnum (.fin 50), .undef, .vstr testSecret⟩)
      = .error (.twt "EVALIDAT" msg))
    ∧ (∃ msg, generateTWT ksZero 100 none
        (some ⟨.vnum (.fin 100), .vnum (.fin 99), .vstr testSecret⟩)
      = .error (.twt "EEXPIRESAT" msg)) :=
  ⟨(generate_validation_order ksZero 100 none
      (some ⟨.vnum (.fin 50), .undef, .vstr testSecret⟩)).1
      (Or.inl (by decide)),
   (generate_validation_order ksZero 100 none
      (some ⟨.vnum (.fin 100), .vnum (.fin 99), .vstr testSecret⟩)).2
      100 rfl (by decide) (by decide) (Or.inr (Or.inl (by decide)))⟩

/-! ## A store-passing model of `generateTWT` (frame property)

JavaScript mutation is visible through the caller's references, so the
frame property is stated against an explicit store: the options records
and claims objects a caller could hold references into live in a
`GenHeap`, references are indices, and `generateTWTHeap` replays
`generateTWT` line by line — `Object.assign(\x7b\x7d, _options || \x7b\x7d)`
allocates a fresh record at the end of the store, the two defaulting
writes target that fresh index, and the merged claims object is a fresh
allocation; everything else only reads. -/

structure GenHeap where
  optsObjs : List GenOptions
  claimsObjs : List JSObj

/-- Prefixes survive writing at a later index. -/
theorem take_set_of_le {α : Type} (l : List α) (i : Nat) (x : α) (n : Nat)
    (h : n ≤ i) : (l.set i x).take n = l.take n := by
  induction l generalizing i n with
  | nil => simp
  | cons hd tl ih =>
    cases i with
    | zero =>
      obtain rfl : n = 0 := by omega
      simp
    | succ i =>
      cases n with
      | zero => simp
      | succ n =>
        simp only [List.set, List.take]
        rw [ih i n (by omega)]

/-- Reading the element just appended. -/
theorem getD_concat_self {α : Type} (l : List α) (a d : α) :
    (l ++ [a]).getD l.length d = a := by
  induction l with
  | nil => rfl
  | cons hd tl ih => exact ih

/-- Reading an index just written. -/
theorem getD_set_self {α : Type} (l : List α) (i : Nat) (x d : α)
    (h : i < l.length) : (l.set i x).getD i d = x := by
  induction l generalizing i with
  | nil => simp at h
  | cons hd tl ih =>
    cases i with
    | zero => rfl
    | succ i => exact ih i (by simpa using h)

/-- Read an options record from the store (`undefined` fields when the
index is dangling, which the model never produces). -/
def readOpts (l : List GenOptions) (i : Nat) : GenOptions :=
  l.getD i ⟨.undef, .undef, .undef⟩

/-- `if (!options.validAt) options.validAt = now;` as a store update. -/
def defaultValidAt (now : Int) (l : List GenOptions) (i : Nat) :
    List GenOptions :=
  if (readOpts l i).validAt.truthy then l
  else l.set i { readOpts l i with validAt := .vnum (.fin now) }

/-- `if (!options.expiresAt) options.expiresAt = options.validAt + ...;`
as a store update. -/
def defaultExpiresAt (l : List GenOptions) (i : Nat) : List GenOptions :=
  if (readOpts l i).expiresAt.truthy then l
  else l.set i { readOpts l i with
    expiresAt := (readOpts l i).validAt.addInt 2592000 }

/-- `generateTWT(props, _options)` with the caller's objects in an
explicit store: the result pairs the final store with the result of
`generateTWT`. -/
def generateTWTHeap (ks : Keystream) (now : Int) (propsRef : Option Nat)
    (optsRef : Option Nat) (h : GenHeap) : GenHeap × Except JSErr String :=
  let base : GenOptions := match optsRef with
    | some r => readOpts h.optsObjs r
    | none => ⟨.undef, .undef, .undef⟩
  let oIdx := h.optsObjs.length
  let l3 := defaultExpiresAt (defaultValidAt now (h.optsObjs ++ [base]) oIdx) oIdx
  let options := readOpts l3 oIdx
  match validateOptions now options with
  | .error e => (⟨l3, h.claimsObjs⟩, .error e)
  | .ok () =>
    let propsVal : JSObj := match propsRef with
      | some r => h.claimsObjs.getD r []
      | none => []
    let claims := objSet (objSet propsVal "$"
      (.jstr (toBase36 (getFinNum options.validAt)))) "$$"
      (.jstr (toBase36 (getFinNum options.expiresAt)))
    let res : Except JSErr String := match options.encodedSecret with
      | .vstr s =>
        match encrypt ks (jsonStringify (.jobj claims)) s with
        | .ok token => .ok token
        | .error m => .error (.twt "EENCRYPTION" ("Encryption error: " ++ m))
      | _ => .error (.twt "EENCRYPTION" "Encryption error: salt.replace is not a function")
    (⟨l3, h.claimsObjs ++ [claims]⟩, res)

theorem take_defaultValidAt (now : Int) (l : List GenOptions) (i n : Nat)
    (h : n ≤ i) : (defaultValidAt now l i).take n = l.take n := by
  unfold defaultValidAt
  split
  · rfl
  · exact take_set_of_le l i _ n h

theorem take_defaultExpiresAt (l : List GenOptions) (i n : Nat)
    (h : n ≤ i) : (defaultExpiresAt l i).take n = l.take n := by
  unfold defaultExpiresAt
  split
  · rfl
  · exact take_set_of_le l i _ n h

/-- The options store after allocation and defaulting still starts with
the caller's records. -/
theorem take_defaults (now : Int) (l : List GenOptions) (base : GenOptions) :
    (defaultExpiresAt (defaultValidAt now (l ++ [base]) l.length)
      l.length).take l.length = l := by
  rw [take_defaultExpiresAt _ _ _ (le_refl _),
    take_defaultValidAt _ _ _ _ (le_refl _)]
  exact List.take_left l [base]

/-- C9: `generateTWT` never mutates its caller's objects: whatever the
call returns — success or any error — every pre-existing record of the
store is unchanged (the store grows at the end only); the defaulting
writes hit the fresh copy of the options object and the `$`/`$$`
injection hits the fresh merged claims object. -/
theorem generateTWTHeap_frame (ks : Keystream) (now : Int)
    (propsRef optsRef : Option Nat) (h : GenHeap) :
    ((generateTWTHeap ks now propsRef optsRef h).1).optsObjs.take
        h.optsObjs.length = h.optsObjs
    ∧ ((generateTWTHeap ks now propsRef optsRef h).1).claimsObjs.take
        h.claimsObjs.length = h.claimsObjs := by
  constructor
  · unfold generateTWTHeap
    dsimp only
    split
    · exact take_defaults now h.optsObjs _
    · exact take_defaults now h.optsObjs _
  · unfold generateTWTHeap
    dsimp only
    split
    · exact List.take_length h.claimsObjs
    · exact List.take_left h.claimsObjs _

/-- The store after defaulting reads back exactly `postDefault`. -/
theorem readOpts_defaults (now : Int) (l : List GenOptions)
    (base : GenOptions) :
    readOpts (defaultExpiresAt (defaultValidAt now (l ++ [base]) l.length)
        l.length) l.length
      = postDefault now (some base) := by
  have hr1 : readOpts (l ++ [base]) l.length = base := by
    unfold readOpts
    exact getD_concat_self l base _
  unfold defaultValidAt
  rw [hr1]
  by_cases h1 : base.validAt.truthy
  · rw [if_pos h1]
    unfold defaultExpiresAt
    rw [hr1]
    by_cases h2 : base.expiresAt.truthy
    · rw [if_pos h2, hr1]
      unfold postDefault
      dsimp only [Option.getD_some]
      rw [if_pos h1, if_pos h2]
    · rw [if_neg h2]
      unfold readOpts
      rw [getD_set_self _ _ _ _ (by simp)]
      unfold postDefault
      dsimp only [Option.getD_some]
      rw [if_pos h1, if_neg h2]
  · rw [if_neg h1]
    have hr2 : readOpts ((l ++ [base]).set l.length
          { base with validAt := .vnum (.fin now) }) l.length
        = { base with validAt := .vnum (.fin now) } := by
      unfold readOpts
      exact getD_set_self _ _ _ _ (by simp)
    unfold defaultExpiresAt
    rw [hr2]
    by_cases h2 : ({ base with validAt := .vnum (.fin now) } :
        GenOptions).expiresAt.truthy
    · rw [if_pos h2, hr2]
      unfold postDefault
      dsimp only [Option.getD_some]
      rw [if_neg h1, if_pos h2]
    · rw [if_neg h2]
      unfold readOpts
      rw [getD_set_self _ _ _ _ (by simp)]
      unfold postDefault
      dsimp only [Option.getD_some]
      rw [if_neg h1, if_neg h2]

/-- The store-passing model returns exactly what `generateTWT` returns
on the referenced objects (the heap layer changes the bookkeeping, not
the function). -/
theorem generateTWTHeap_result (ks : Keystream) (now : Int)
    (propsRef optsRef : Option Nat) (h : GenHeap) :
    (generateTWTHeap ks now propsRef optsRef h).2
      = generateTWT ks now (propsRef.map (fun r => h.claimsObjs.getD r []))
          (optsRef.map (fun r => readOpts h.optsObjs r)) := by
  unfold generateTWTHeap generateTWT
  dsimp only
  rw [show (match optsRef with
      | some r => readOpts h.optsObjs r
      | none => (⟨.undef, .undef, .undef⟩ : GenOptions))
      = (optsRef.map (fun r => readOpts h.optsObjs r)).getD
          ⟨.undef, .undef, .undef⟩ from by
    cases optsRef <;> rfl]
  rw [readOpts_defaults]
  rw [show postDefault now (some ((optsRef.map
        (fun r => readOpts h.optsObjs r)).getD ⟨.undef, .undef, .undef⟩))
      = postDefault now (optsRef.map (fun r => readOpts h.optsObjs r)) from by
    unfold postDefault
    rfl]
  rw [show (match propsRef with
      | some r => h.claimsObjs.getD r []
      | none => ([] : JSObj))
      = ((propsRef.map (fun r => h.claimsObjs.getD r [])).getD []) from by
    cases propsRef <;> rfl]
  split
  · rfl
  · rfl
